import Mathlib

/-!
Verification of the gh-assistant push orchestration workflow.

The Go sources are shallowly embedded: every git subprocess invocation is an
oracle field of `GitEnv` holding the `Except`-style outcome the underlying
tool would report, branch tracking state lives in `GitState` (mutated only by
a successful upstream-setting push), and the two command handlers
(`runPushx` from cmd/pushx.go and `runPush` from the push command variant)
are pure functions that also record a trace of observable actions.
-/

/-- One observable action of a run, in execution order. -/
inductive Event where
  | stageAllEv
  | generateEv (diff : String) (files : List String)
  | promptMessage
  | promptPush
  | commitEv (msg : String)
  | snapshotFirstPush (v : Bool)
  | snapshotMainBranch (v : Bool)
  | pushPlainEv
  | pushUpstreamEv
  | ticketCreateEv (msg : String)
  | ticketWarnEv
  | ticketOkEv (title : String)
deriving DecidableEq

/-- Exit status of a run: the `error` value returned by the Go handler. -/
inductive RunResult where
  | ok
  | fail (msg : String)
deriving DecidableEq

/-- Branch tracking state of the repository; `hasUpstream` is whether
`rev-parse --abbrev-ref <branch>@{upstream}` resolves.  A successful
`git push -u` makes it true. -/
structure GitState where
  hasUpstream : Bool
deriving DecidableEq

/-- Oracle outcomes for every external call a run can make, plus the
configuration values read before the run starts. -/
structure GitEnv where
  apiKey : String
  isRepo : Bool
  branch : Except String String
  stagedNames : Except String String
  unstagedNames : Except String String
  changedNamesHead : Except String String
  stagedDiff : Except String String
  headDiff : Except String String
  upstreamDiff : Except String String
  emptyTreeDiff : Except String String
  logUpstream : Except String String
  remoteOutput : Except String String
  stageAllResult : Except String Unit
  commitResult : Except String Unit
  pushResult : Except String Unit
  pushSetUpstreamResult : Except String Unit
  genResult : Except String String
  jiraURL : String
  jiraEmail : String
  jiraToken : String
  jiraProject : String
  createIssueKey : Except String String
  transitionOK : Bool

/-- Command-line flags of the push command. -/
structure Flags where
  stageAll : Bool
  autoConfirm : Bool

/-- What the human types at the interactive prompts. -/
structure UserInput where
  confirmInput : String
  editLines : List String
  pushConfirmInput : String

/-- Result, trace and final repository state of one run. -/
structure RunOutput where
  result : RunResult
  trace : List Event
  state : GitState

/-- Default value on error; models the Go callers that discard the error
with `x, _ := ...`. -/
def exceptD {α : Type} (d : α) : Except String α → α
  | .error _ => d
  | .ok a => a

/-- Whether an `Except` outcome is an error. -/
def isErr {α : Type} : Except String α → Bool
  | .error _ => true
  | .ok _ => false

/- ===== models of the Go `strings` functions used by the sources ===== -/

/-- Model of Go `strings.Split` on a single-character separator. -/
def splitCharList (sep : Char) : List Char → List (List Char)
  | [] => [[]]
  | c :: cs =>
    if c = sep then [] :: splitCharList sep cs
    else
      match splitCharList sep cs with
      | [] => [[c]]
      | g :: gs => (c :: g) :: gs

/-- Model of Go `strings.Split(s, "\n")`. -/
def splitLines (s : String) : List String :=
  (splitCharList '\n' s.data).map String.mk

/-- Find the first occurrence of `sep` (nonempty) in a character list,
returning the text before it and the text after it. -/
def breakOnSub (sep : List Char) : List Char → Option (List Char × List Char)
  | [] => none
  | c :: cs =>
    if sep.isPrefixOf (c :: cs) then some ([], (c :: cs).drop sep.length)
    else
      match breakOnSub sep cs with
      | none => none
      | some (pre, post) => some (c :: pre, post)

/-- Model of Go `strings.SplitN(s, sep, 2)` for a nonempty separator. -/
def splitN2 (s sep : String) : List String :=
  match breakOnSub sep.data s.data with
  | none => [s]
  | some (pre, post) => [String.mk pre, String.mk post]

/-- The ASCII whitespace characters Go `strings.TrimSpace` removes. -/
def isSpaceChar (c : Char) : Bool :=
  c = ' ' ∨ c = '\t' ∨ c = '\n' ∨ c = '\x0b' ∨ c = '\x0c' ∨ c = '\r'

/-- Model of Go `strings.ToLower` on one ASCII character. -/
def toLowerChar (c : Char) : Char :=
  if 65 ≤ c.toNat ∧ c.toNat ≤ 90 then Char.ofNat (c.toNat + 32) else c

/-- Model of Go `strings.ToLower` (ASCII range). -/
def toLowerGo (s : String) : String :=
  String.mk (s.data.map toLowerChar)

/-- The character-list core of `strings.TrimSpace`. -/
def trimList (l : List Char) : List Char :=
  ((l.dropWhile isSpaceChar).reverse.dropWhile isSpaceChar).reverse

/-- Model of Go `strings.TrimSpace`. -/
def trimSpaceGo (s : String) : String :=
  String.mk (trimList s.data)

/-- Model of Go `strings.TrimRight(line, "\n\r")`. -/
def trimNewlineRight (s : String) : String :=
  String.mk ((s.data.reverse.dropWhile (fun c => c = '\n' ∨ c = '\r')).reverse)

/- ===== internal/git/git.go ===== -/

namespace Git

/-- `HasStagedChanges`: `git diff --cached --name-only`, nonempty output. -/
def hasStagedChanges (env : GitEnv) : Except String Bool :=
  match env.stagedNames with
  | .error e => .error e
  | .ok out => .ok (out ≠ "")

/-- `HasUnstagedChanges`: `git diff --name-only`, nonempty output. -/
def hasUnstagedChanges (env : GitEnv) : Except String Bool :=
  match env.unstagedNames with
  | .error e => .error e
  | .ok out => .ok (out ≠ "")

/-- `GetStagedDiff`: `git diff --cached`. -/
def getStagedDiff (env : GitEnv) : Except String String :=
  env.stagedDiff

/-- `GetAllDiff`: `git diff HEAD`. -/
def getAllDiff (env : GitEnv) : Except String String :=
  env.headDiff

/-- `GetUnpushedCommitMessages`: branch, then upstream resolution (absence is
an empty list, not an error), then `git log upstream..HEAD`. -/
def getUnpushedCommitMessages (env : GitEnv) (st : GitState) :
    Except String (List String) :=
  match env.branch with
  | .error e => .error e
  | .ok _ =>
    if st.hasUpstream then
      match env.logUpstream with
      | .error e => .error e
      | .ok out => if out = "" then .ok [] else .ok (splitLines out)
    else .ok []

/-- `GetUnpushedDiff`: diff against upstream when present, else against the
empty-tree sentinel. -/
def getUnpushedDiff (env : GitEnv) (st : GitState) : Except String String :=
  match env.branch with
  | .error e => .error e
  | .ok _ => if st.hasUpstream then env.upstreamDiff else env.emptyTreeDiff

/-- `GetChangedFiles`: `git diff --name-only HEAD`, falling back to the
staged name list (`git diff --cached --name-only`) when HEAD cannot be
diffed; an empty output is an empty list. -/
def getChangedFiles (env : GitEnv) : Except String (List String) :=
  match env.changedNamesHead with
  | .ok out => .ok (if out = "" then [] else splitLines out)
  | .error _ =>
    match env.stagedNames with
    | .error e => .error e
    | .ok out => .ok (if out = "" then [] else splitLines out)

/-- `GetRemote`: `git remote`, preferring a remote literally named
"origin", else the first listed remote; the empty-list guard mirrors the
source even though `strings.Split` never returns an empty slice. -/
def getRemote (env : GitEnv) : Except String String :=
  match env.remoteOutput with
  | .error e => .error e
  | .ok out =>
    let remotes := splitLines out
    match remotes with
    | [] => .error "no remote configured"
    | r0 :: _ => if remotes.contains "origin" then .ok "origin" else .ok r0

/-- `IsFirstPushToBranch`: true when the branch has no upstream; the branch
read error is returned to the caller (which discards it, taking `false`). -/
def isFirstPushToBranch (env : GitEnv) (st : GitState) : Except String Bool :=
  match env.branch with
  | .error e => .error e
  | .ok _ => .ok (!st.hasUpstream)

/-- `IsMainBranch`: pure name check, `false` when the branch is unreadable. -/
def isMainBranch (env : GitEnv) : Bool :=
  match env.branch with
  | .error _ => false
  | .ok b => b = "main" ∨ b = "master"

/-- `Push`: resolve remote and branch, then `git push remote branch`. -/
def push (env : GitEnv) : Except String Unit :=
  match getRemote env with
  | .error e => .error e
  | .ok _ =>
    match env.branch with
    | .error e => .error e
    | .ok _ => env.pushResult

/-- `PushSetUpstream`: resolve remote and branch, then `git push -u`. -/
def pushSetUpstream (env : GitEnv) : Except String Unit :=
  match getRemote env with
  | .error e => .error e
  | .ok _ =>
    match env.branch with
    | .error e => .error e
    | .ok _ => env.pushSetUpstreamResult

end Git

/- ===== internal/jira/jira.go ===== -/

namespace Jira

/-- `IsConfigured`: all four configuration values nonempty. -/
def isConfigured (env : GitEnv) : Bool :=
  env.jiraURL ≠ "" ∧ env.jiraEmail ≠ "" ∧ env.jiraToken ≠ "" ∧
    env.jiraProject ≠ ""

/-- `CreateIssueWithTitle`: create the issue, best-effort transition it to
In Progress (a transition failure is only warned about and never affects the
returned value), and return `"<KEY> - <message>"`. -/
def createIssueWithTitle (env : GitEnv) (commitMessage : String) :
    Except String String :=
  match env.createIssueKey with
  | .error e => .error ("failed to create issue: " ++ e)
  | .ok key => .ok (key ++ " - " ++ commitMessage)

end Jira

/- ===== cmd: interactive confirmation ===== -/

/-- The four-way decision of the message confirmation switch. -/
inductive ConfirmDecision where
  | accept
  | reject
  | edit
  | invalid
deriving DecidableEq

/-- The `switch` of the confirmation step, on the normalized input. -/
def confirmSwitch (s : String) : ConfirmDecision :=
  if s = "n" ∨ s = "no" then .reject
  else if s = "e" ∨ s = "edit" then .edit
  else if s = "" ∨ s = "y" ∨ s = "yes" then .accept
  else .invalid

/-- The confirmation decision: the raw input is lowercased then trimmed
(`strings.TrimSpace(strings.ToLower(input))`) before the switch. -/
def parseConfirm (input : String) : ConfirmDecision :=
  confirmSwitch (trimSpaceGo (toLowerGo input))

/-- The push-only confirmation of the unpushed-commits path: after the same
normalization, only "n"/"no" abort; anything else proceeds. -/
def pushPromptRejects (input : String) : Bool :=
  let s := trimSpaceGo (toLowerGo input)
  s = "n" ∨ s = "no"

/-- The lines the edit loop collects: read lines (stripping the trailing
newline), stop at an empty line once at least one line was kept, skip empty
lines otherwise.  The end-of-stream base case with a nonempty accumulator
matches the program — the reader's ignored end-of-input error comes with an
empty read, which breaks the loop; with an empty accumulator it is an
over-approximation that keeps the pipeline total, because the program's loop
never terminates in that case (`collectEditLinesF` below models the loop
exactly, and `collectEditLinesF_sound` relates the two). -/
def collectEditLines : List String → List String → List String
  | [], acc => acc
  | raw :: rest, acc =>
    let line := trimNewlineRight raw
    if line = "" ∧ acc ≠ [] then acc
    else if line ≠ "" then collectEditLines rest (acc ++ [line])
    else collectEditLines rest acc

/-- A bounded unrolling of the interactive edit loop exactly as the program
runs it: each iteration reads one line — an exhausted stream models the
reader at end of input, whose ignored error comes with an empty read, over
and over — strips the trailing newline, breaks once an empty line follows at
least one kept line, and otherwise skips empty lines.  `none` means the loop
has not terminated within `fuel` iterations. -/
def collectEditLinesF : Nat → List String → List String → Option (List String)
  | 0, _, _ => none
  | fuel + 1, stream, acc =>
    let line := trimNewlineRight (stream.headD "")
    if line = "" ∧ acc ≠ [] then some acc
    else if line ≠ "" then collectEditLinesF fuel stream.tail (acc ++ [line])
    else collectEditLinesF fuel stream.tail acc

/-- The interactive confirmation step shared verbatim by both command
variants: `none` aborts the run (both explicit rejection and invalid input),
`some m` proceeds with message `m`.  The zero-collected-lines edit branch
keeps the proposal as the source's `len(lines) > 0` guard intends, but in
the program that branch is unreachable: the loop never terminates with zero
kept lines (see `collectEditLinesF_empty_diverges`). -/
def confirmMessage (autoConfirm : Bool) (confirmInput : String)
    (editStream : List String) (message : String) :
    Option String × List Event :=
  if autoConfirm then (some message, [])
  else
    match parseConfirm confirmInput with
    | .reject => (none, [Event.promptMessage])
    | .invalid => (none, [Event.promptMessage])
    | .edit =>
      let lines := collectEditLines editStream []
      if lines.length > 0 then
        (some (String.intercalate "\n" lines), [Event.promptMessage])
      else (some message, [Event.promptMessage])
    | .accept => (some message, [Event.promptMessage])

/- ===== cmd: push / ticket tail (identical in both command variants) ===== -/

/-- The ticket step after a successful push: gate on the snapshotted
first-push and main-branch indicators, then on the Jira configuration; a
creation failure is a warning and the result is success either way. -/
def afterPush (env : GitEnv) (st : GitState) (isFirstPush isMain : Bool)
    (message : String) (tr : List Event) : RunOutput :=
  if isFirstPush && !isMain then
    if Jira.isConfigured env then
      let tr2 := tr ++ [Event.ticketCreateEv message]
      match Jira.createIssueWithTitle env message with
      | .error _ => ⟨.ok, tr2 ++ [Event.ticketWarnEv], st⟩
      | .ok title => ⟨.ok, tr2 ++ [Event.ticketOkEv title], st⟩
    else ⟨.ok, tr, st⟩
  else ⟨.ok, tr, st⟩

/-- Snapshot `isFirstPush`/`isMainBranch`, then plain push with a single
upstream-setting retry; only after both fail is a push error surfaced.  A
successful `git push -u` records the new upstream in the state. -/
def pushAndTicket (env : GitEnv) (st : GitState) (message : String)
    (tr : List Event) : RunOutput :=
  let isFirstPush := exceptD false (Git.isFirstPushToBranch env st)
  let isMain := Git.isMainBranch env
  let tr1 := tr ++ [Event.snapshotFirstPush isFirstPush,
    Event.snapshotMainBranch isMain, Event.pushPlainEv]
  match Git.push env with
  | .ok _ => afterPush env st isFirstPush isMain message tr1
  | .error _ =>
    let tr2 := tr1 ++ [Event.pushUpstreamEv]
    match Git.pushSetUpstream env with
    | .error e => ⟨.fail ("failed to push: " ++ e), tr2, st⟩
    | .ok _ =>
      afterPush env { st with hasUpstream := true } isFirstPush isMain
        message tr2

/-- Commit when staged changes made it necessary, then the shared tail. -/
def commitAndPush (env : GitEnv) (st : GitState) (needsCommit : Bool)
    (message : String) (tr : List Event) : RunOutput :=
  if needsCommit then
    let tr2 := tr ++ [Event.commitEv message]
    match env.commitResult with
    | .error e => ⟨.fail ("failed to commit: " ++ e), tr2, st⟩
    | .ok _ => pushAndTicket env st message tr2
  else pushAndTicket env st message tr

/- ===== cmd/pushx.go: runPushx ===== -/

/-- The common part of `runPushx` from the changed-files listing on:
generation, confirmation, optional commit, push and ticket. -/
def pushxGenerate (env : GitEnv) (flags : Flags) (inp : UserInput)
    (s0 : GitState) (tr0 : List Event) (diff : String) (needsCommit : Bool) :
    RunOutput :=
  let changedFiles := exceptD [] (Git.getChangedFiles env)
  if diff = "" then ⟨.fail "no changes detected", tr0, s0⟩
  else
    let tr1 := tr0 ++ [Event.generateEv diff changedFiles]
    match env.genResult with
    | .error e => ⟨.fail ("failed to generate commit message: " ++ e), tr1, s0⟩
    | .ok message =>
      match confirmMessage flags.autoConfirm inp.confirmInput inp.editLines
          message with
      | (none, evs) => ⟨.ok, tr1 ++ evs, s0⟩
      | (some msg, evs) => commitAndPush env s0 needsCommit msg (tr1 ++ evs)

/-- The no-staged-changes path of `runPushx`: with an empty diff the run
fails (pointing at unstaged changes when present); otherwise the unpushed
diff is summarized like a staged one, with no commit step. -/
def pushxNoStaged (env : GitEnv) (flags : Flags) (inp : UserInput)
    (s0 : GitState) (tr0 : List Event) (diff : String) : RunOutput :=
  if diff = "" then
    if exceptD false (Git.hasUnstagedChanges env) then
      ⟨.fail "you have unstaged changes. Use -a flag to stage all, or stage manually with git add", tr0, s0⟩
    else ⟨.fail "no changes to commit or push", tr0, s0⟩
  else pushxGenerate env flags inp s0 tr0 diff false

/-- `runPushx` (cmd/pushx.go): the pushx command handler. -/
def runPushx (env : GitEnv) (flags : Flags) (inp : UserInput)
    (s0 : GitState) : RunOutput :=
  if env.apiKey = "" then ⟨.fail "API key not configured", [], s0⟩
  else if env.isRepo = false then ⟨.fail "not a git repository", [], s0⟩
  else
    let tr0 : List Event := if flags.stageAll then [Event.stageAllEv] else []
    let stagingResult : Except String Unit :=
      if flags.stageAll then env.stageAllResult else .ok ()
    match stagingResult with
    | .error e => ⟨.fail ("failed to stage changes: " ++ e), tr0, s0⟩
    | .ok _ =>
      match Git.hasStagedChanges env with
      | .error e => ⟨.fail ("failed to check staged changes: " ++ e), tr0, s0⟩
      | .ok hasStaged =>
        if hasStaged then
          match Git.getStagedDiff env with
          | .error e => ⟨.fail ("failed to get staged diff: " ++ e), tr0, s0⟩
          | .ok diff => pushxGenerate env flags inp s0 tr0 diff true
        else
          match Git.getUnpushedDiff env s0 with
          | .ok diff => pushxNoStaged env flags inp s0 tr0 diff
          | .error _ =>
            match Git.getAllDiff env with
            | .error e => ⟨.fail ("failed to get diff: " ++ e), tr0, s0⟩
            | .ok diff => pushxNoStaged env flags inp s0 tr0 diff

/- ===== the push command variant: runPush ===== -/

/-- The basis for optional ticket creation in the unpushed-only state: the
most recent unpushed commit entry `"<shortHash> - <subject>"`, reduced to its
subject; the message stays empty when the delimiter is absent. -/
def extractBasis (unpushedMessages : List String) : String :=
  let parts := splitN2 (unpushedMessages.headD "") " - "
  if parts.length = 2 then parts.getD 1 "" else ""

/-- `runPush` (the push command variant): staged changes get the generated
message, confirmation and a commit; otherwise existing unpushed commits are
pushed after a push-only confirmation, reusing the most recent commit
message as ticket basis. -/
def runPush (env : GitEnv) (flags : Flags) (inp : UserInput)
    (s0 : GitState) : RunOutput :=
  if env.apiKey = "" then ⟨.fail "API key not configured", [], s0⟩
  else if env.isRepo = false then ⟨.fail "not a git repository", [], s0⟩
  else
    let tr0 : List Event := if flags.stageAll then [Event.stageAllEv] else []
    let stagingResult : Except String Unit :=
      if flags.stageAll then env.stageAllResult else .ok ()
    match stagingResult with
    | .error e => ⟨.fail ("failed to stage changes: " ++ e), tr0, s0⟩
    | .ok _ =>
      match Git.hasStagedChanges env with
      | .error e => ⟨.fail ("failed to check staged changes: " ++ e), tr0, s0⟩
      | .ok hasStaged =>
        let unpushedMessages :=
          exceptD [] (Git.getUnpushedCommitMessages env s0)
        if hasStaged then
          match Git.getStagedDiff env with
          | .error e => ⟨.fail ("failed to get staged diff: " ++ e), tr0, s0⟩
          | .ok diff =>
            let changedFiles := exceptD [] (Git.getChangedFiles env)
            let tr1 := tr0 ++ [Event.generateEv diff changedFiles]
            match env.genResult with
            | .error e =>
              ⟨.fail ("failed to generate commit message: " ++ e), tr1, s0⟩
            | .ok message =>
              match confirmMessage flags.autoConfirm inp.confirmInput
                  inp.editLines message with
              | (none, evs) => ⟨.ok, tr1 ++ evs, s0⟩
              | (some msg, evs) => commitAndPush env s0 true msg (tr1 ++ evs)
        else
          if 0 < unpushedMessages.length then
            if flags.autoConfirm then
              pushAndTicket env s0 (extractBasis unpushedMessages) tr0
            else
              let tr1 := tr0 ++ [Event.promptPush]
              if pushPromptRejects inp.pushConfirmInput then ⟨.ok, tr1, s0⟩
              else pushAndTicket env s0 (extractBasis unpushedMessages) tr1
          else
            if exceptD false (Git.hasUnstagedChanges env) then
              ⟨.fail "you have unstaged changes. Use -a flag to stage all, or stage manually with git add", tr0, s0⟩
            else ⟨.fail "no changes to commit or push", tr0, s0⟩

/- ===== auxiliary predicates and concrete witness data ===== -/

/-- Events a run can record before reaching the push/ticket tail; every
generation event carries the changed-files value the run computed. -/
def preOnly (env : GitEnv) (tr : List Event) : Prop :=
  ∀ e ∈ tr, e = Event.stageAllEv ∨
    (∃ d, e = Event.generateEv d (exceptD [] (Git.getChangedFiles env))) ∨
    e = Event.promptMessage ∨ e = Event.promptPush ∨
    ∃ m, e = Event.commitEv m

/-- Number of occurrences of an event in a trace. -/
def countE (e : Event) (tr : List Event) : Nat :=
  (tr.filter (fun x => decide (x = e))).length

/-- A fully healthy environment: feature branch, staged change, working AI
and Jira configuration. -/
def envHappy : GitEnv where
  apiKey := "key"
  isRepo := true
  branch := .ok "feature/x"
  stagedNames := .ok "a.go"
  unstagedNames := .ok ""
  changedNamesHead := .ok "a.go"
  stagedDiff := .ok "diff-a"
  headDiff := .ok "diff-a"
  upstreamDiff := .ok "diff-u"
  emptyTreeDiff := .ok "diff-e"
  logUpstream := .ok "abc1234 - feat: earlier work"
  remoteOutput := .ok "origin"
  stageAllResult := .ok ()
  commitResult := .ok ()
  pushResult := .ok ()
  pushSetUpstreamResult := .ok ()
  genResult := .ok "feat(api): add login"
  jiraURL := "https://x.example"
  jiraEmail := "a@b.c"
  jiraToken := "tok"
  jiraProject := "PROJ"
  createIssueKey := .ok "PROJ-123"
  transitionOK := true

/-- Flags: no stage-all, auto-confirm on. -/
def flagsAuto : Flags where
  stageAll := false
  autoConfirm := true

/-- Flags: no stage-all, interactive confirmation. -/
def flagsAsk : Flags where
  stageAll := false
  autoConfirm := false

/-- Flags: stage-all requested, interactive confirmation. -/
def flagsAllAsk : Flags where
  stageAll := true
  autoConfirm := false

/-- Empty interactive input (accept by default). -/
def inpEmpty : UserInput where
  confirmInput := ""
  editLines := []
  pushConfirmInput := ""

/-- Interactive input rejecting the proposed message. -/
def inpReject : UserInput where
  confirmInput := "n"
  editLines := []
  pushConfirmInput := ""

/-- Interactive input choosing edit and typing two lines. -/
def inpEditTwo : UserInput where
  confirmInput := "e"
  editLines := ["fix: better title", "with a body", ""]
  pushConfirmInput := ""

/-- The healthy environment with no remote configured: `git remote`
succeeds with empty output. -/
def envNoRemote : GitEnv :=
  { envHappy with remoteOutput := .ok "" }

/-- The healthy environment with an unreadable branch: every branch read
fails, so the push also fails. -/
def envBranchErr : GitEnv :=
  { envHappy with
    branch := .error "boom"
    pushResult := .error "cannot push"
    pushSetUpstreamResult := .error "cannot push" }

/-- The healthy environment with nothing staged (unpushed commits remain). -/
def envUnpushedOnly : GitEnv :=
  { envHappy with stagedNames := .ok "" }

/-- The healthy environment whose staged-changes check itself fails. -/
def envStagedErr : GitEnv :=
  { envHappy with stagedNames := .error "io" }

/- ===== string normalization lemmas ===== -/

theorem toNat_ofNat_small {n : Nat} (h : n < 55296) :
    (Char.ofNat n).toNat = n := by
  have hv : n.isValidChar := Or.inl h
  rw [Char.ofNat, dif_pos hv]
  rfl

theorem toLowerChar_idem (c : Char) :
    toLowerChar (toLowerChar c) = toLowerChar c := by
  unfold toLowerChar
  by_cases h : 65 ≤ c.toNat ∧ c.toNat ≤ 90
  · rw [if_pos h]
    have h2 : (Char.ofNat (c.toNat + 32)).toNat = c.toNat + 32 :=
      toNat_ofNat_small (by omega)
    rw [if_neg (by rw [h2]; omega)]
  · rw [if_neg h, if_neg h]

theorem toLowerChar_space {c : Char} (h : isSpaceChar c = true) :
    toLowerChar c = c := by
  simp only [isSpaceChar, decide_eq_true_eq] at h
  rcases h with h | h | h | h | h | h <;> subst h <;> decide

theorem toLowerGo_idem (s : String) : toLowerGo (toLowerGo s) = toLowerGo s := by
  unfold toLowerGo
  simp only [List.map_map]
  congr 1
  exact List.map_congr_left (fun c _ => by
    simp only [Function.comp_apply, toLowerChar_idem])

theorem dropWhile_space_nil {l : List Char}
    (h : ∀ c ∈ l, isSpaceChar c = true) : l.dropWhile isSpaceChar = [] := by
  induction l with
  | nil => rfl
  | cons c cs ih =>
    rw [List.dropWhile_cons, if_pos (h c (List.mem_cons_self c cs))]
    exact ih fun x hx => h x (List.mem_cons_of_mem c hx)

theorem trimList_pad (pre post l : List Char)
    (hp : ∀ c ∈ pre, isSpaceChar c = true)
    (hq : ∀ c ∈ post, isSpaceChar c = true) :
    trimList (pre ++ l ++ post) = trimList l := by
  unfold trimList
  rw [List.append_assoc, List.dropWhile_append_of_pos hp,
    List.dropWhile_append]
  by_cases he : (l.dropWhile isSpaceChar).isEmpty
  · rw [if_pos he]
    rw [dropWhile_space_nil hq]
    rw [List.isEmpty_iff] at he
    rw [he]
  · rw [if_neg he]
    rw [List.reverse_append, List.dropWhile_append_of_pos (by
      intro c hc
      rw [List.mem_reverse] at hc
      exact hq c hc)]

theorem parseConfirm_congr {a b : String}
    (h : trimSpaceGo (toLowerGo a) = trimSpaceGo (toLowerGo b)) :
    parseConfirm a = parseConfirm b := by
  unfold parseConfirm
  rw [h]

theorem parseConfirm_pad (s : String) (pre post : List Char)
    (hp : ∀ c ∈ pre, isSpaceChar c = true)
    (hq : ∀ c ∈ post, isSpaceChar c = true) :
    parseConfirm (String.mk (pre ++ s.data ++ post)) = parseConfirm s := by
  apply parseConfirm_congr
  unfold trimSpaceGo toLowerGo
  congr 1
  show trimList (List.map toLowerChar (pre ++ s.data ++ post)) =
    trimList (List.map toLowerChar s.data)
  have hpre : List.map toLowerChar pre = pre :=
    (List.map_congr_left fun c hc =>
      (toLowerChar_space (hp c hc)).trans rfl).trans (List.map_id pre)
  have hpost : List.map toLowerChar post = post :=
    (List.map_congr_left fun c hc =>
      (toLowerChar_space (hq c hc)).trans rfl).trans (List.map_id post)
  rw [List.map_append, List.map_append, hpre, hpost]
  exact trimList_pad pre post _ hp hq

theorem parseConfirm_toLower (s : String) :
    parseConfirm (toLowerGo s) = parseConfirm s := by
  apply parseConfirm_congr
  rw [toLowerGo_idem]

/- ===== trace counting lemmas ===== -/

theorem countE_append (e : Event) (l1 l2 : List Event) :
    countE e (l1 ++ l2) = countE e l1 + countE e l2 := by
  simp [countE, List.filter_append]

theorem countE_eq_zero {e : Event} {l : List Event} (h : ∀ x ∈ l, x ≠ e) :
    countE e l = 0 := by
  unfold countE
  rw [List.filter_eq_nil_iff.mpr (by intro a ha; simpa using h a ha)]
  rfl

theorem countE_single_self (e : Event) : countE e [e] = 1 := by
  simp [countE]

/- ===== lemmas about the push / ticket tail ===== -/

theorem afterPush_result (env : GitEnv) (st : GitState) (f w : Bool)
    (m : String) (tr : List Event) :
    (afterPush env st f w m tr).result = RunResult.ok := by
  unfold afterPush
  split
  · split
    · split <;> rfl
    · rfl
  · rfl

theorem afterPush_state (env : GitEnv) (st : GitState) (f w : Bool)
    (m : String) (tr : List Event) :
    (afterPush env st f w m tr).state = st := by
  unfold afterPush
  split
  · split
    · split <;> rfl
    · rfl
  · rfl

theorem afterPush_trace (env : GitEnv) (st : GitState) (f w : Bool)
    (m : String) (tr : List Event) :
    ∃ rest, (afterPush env st f w m tr).trace = tr ++ rest ∧
      ∀ e ∈ rest, e = Event.ticketCreateEv m ∨ e = Event.ticketWarnEv ∨
        ∃ t, e = Event.ticketOkEv t := by
  unfold afterPush
  split
  · split
    · split
      · refine ⟨[Event.ticketCreateEv m, Event.ticketWarnEv], by simp, ?_⟩
        intro e he
        simp only [List.mem_cons, List.not_mem_nil, or_false] at he
        rcases he with he | he
        · exact Or.inl he
        · exact Or.inr (Or.inl he)
      · rename_i title _
        refine ⟨[Event.ticketCreateEv m, Event.ticketOkEv title], by simp, ?_⟩
        intro e he
        simp only [List.mem_cons, List.not_mem_nil, or_false] at he
        rcases he with he | he
        · exact Or.inl he
        · exact Or.inr (Or.inr ⟨title, he⟩)
    · exact ⟨[], by simp, by intro e he; simp at he⟩
  · exact ⟨[], by simp, by intro e he; simp at he⟩

theorem afterPush_ticket (env : GitEnv) (st : GitState) (f w : Bool)
    (m : String) (tr : List Event)
    (h : ∀ m2, Event.ticketCreateEv m2 ∉ tr) :
    ((∃ m2, Event.ticketCreateEv m2 ∈ (afterPush env st f w m tr).trace) ↔
      (f = true ∧ w = false ∧ Jira.isConfigured env = true)) := by
  unfold afterPush
  by_cases hg : (f && !w) = true
  · rw [if_pos hg]
    rw [Bool.and_eq_true, Bool.not_eq_true'] at hg
    by_cases hc : Jira.isConfigured env = true
    · rw [if_pos hc]
      constructor
      · intro _; exact ⟨hg.1, hg.2, hc⟩
      · intro _
        split
        · exact ⟨m, by simp⟩
        · exact ⟨m, by simp⟩
    · rw [if_neg hc]
      constructor
      · intro ⟨m2, hm2⟩
        exact absurd hm2 (h m2)
      · intro hrhs
        exact absurd hrhs.2.2 hc
  · rw [if_neg hg]
    constructor
    · intro ⟨m2, hm2⟩
      exact absurd hm2 (h m2)
    · intro hrhs
      rw [Bool.and_eq_true, Bool.not_eq_true'] at hg
      exact absurd ⟨hrhs.1, hrhs.2.1⟩ hg

theorem countE_cons (e x : Event) (l : List Event) :
    countE e (x :: l) = (if x = e then 1 else 0) + countE e l := by
  unfold countE
  rw [List.filter_cons]
  by_cases h : x = e
  · simp [h]
    omega
  · simp [h]

theorem pushAndTicket_trace (env : GitEnv) (st : GitState) (m : String)
    (tr : List Event) :
    ∃ rest, (pushAndTicket env st m tr).trace =
      tr ++ [Event.snapshotFirstPush
          (exceptD false (Git.isFirstPushToBranch env st)),
        Event.snapshotMainBranch (Git.isMainBranch env),
        Event.pushPlainEv] ++ rest ∧
      ∀ e ∈ rest, e = Event.pushUpstreamEv ∨ e = Event.ticketCreateEv m ∨
        e = Event.ticketWarnEv ∨ ∃ t, e = Event.ticketOkEv t := by
  unfold pushAndTicket
  dsimp only
  cases hp : Git.push env with
  | ok u =>
    obtain ⟨r, hr, hall⟩ := afterPush_trace env st
      (exceptD false (Git.isFirstPushToBranch env st)) (Git.isMainBranch env)
      m (tr ++ [Event.snapshotFirstPush
          (exceptD false (Git.isFirstPushToBranch env st)),
        Event.snapshotMainBranch (Git.isMainBranch env), Event.pushPlainEv])
    refine ⟨r, hr, ?_⟩
    intro e he
    rcases hall e he with h1 | h1 | h1
    · exact Or.inr (Or.inl h1)
    · exact Or.inr (Or.inr (Or.inl h1))
    · exact Or.inr (Or.inr (Or.inr h1))
  | error e1 =>
    cases hq : Git.pushSetUpstream env with
    | error e2 =>
      refine ⟨[Event.pushUpstreamEv], by simp, ?_⟩
      intro e he
      simp only [List.mem_cons, List.not_mem_nil, or_false] at he
      exact Or.inl he
    | ok u =>
      obtain ⟨r, hr, hall⟩ := afterPush_trace env { st with hasUpstream := true }
        (exceptD false (Git.isFirstPushToBranch env st)) (Git.isMainBranch env)
        m ((tr ++ [Event.snapshotFirstPush
            (exceptD false (Git.isFirstPushToBranch env st)),
          Event.snapshotMainBranch (Git.isMainBranch env), Event.pushPlainEv])
          ++ [Event.pushUpstreamEv])
      refine ⟨Event.pushUpstreamEv :: r, ?_, ?_⟩
      · rw [hr]
        simp
      · intro e he
        rcases List.mem_cons.mp he with h1 | h1
        · exact Or.inl h1
        · rcases hall e h1 with h2 | h2 | h2
          · exact Or.inr (Or.inl h2)
          · exact Or.inr (Or.inr (Or.inl h2))
          · exact Or.inr (Or.inr (Or.inr h2))

theorem pushAndTicket_result (env : GitEnv) (st : GitState) (m : String)
    (tr : List Event) :
    ((pushAndTicket env st m tr).result = RunResult.ok ↔
      ¬(isErr (Git.push env) = true ∧
        isErr (Git.pushSetUpstream env) = true)) := by
  unfold pushAndTicket
  dsimp only
  cases hp : Git.push env with
  | ok u => simp [afterPush_result, isErr]
  | error e1 =>
    cases hq : Git.pushSetUpstream env with
    | error e2 => simp [isErr]
    | ok u => simp [afterPush_result, isErr]

theorem pushAndTicket_state (env : GitEnv) (st : GitState) (m : String)
    (tr : List Event) (h : Event.pushUpstreamEv ∉ tr)
    (hok : (pushAndTicket env st m tr).result = RunResult.ok)
    (hm : Event.pushUpstreamEv ∈ (pushAndTicket env st m tr).trace) :
    (pushAndTicket env st m tr).state.hasUpstream = true := by
  revert hok hm
  unfold pushAndTicket
  dsimp only
  cases hp : Git.push env with
  | ok u =>
    intro hok hm
    obtain ⟨r, hr, hall⟩ := afterPush_trace env st
      (exceptD false (Git.isFirstPushToBranch env st)) (Git.isMainBranch env)
      m (tr ++ [Event.snapshotFirstPush
          (exceptD false (Git.isFirstPushToBranch env st)),
        Event.snapshotMainBranch (Git.isMainBranch env), Event.pushPlainEv])
    rw [hr] at hm
    rw [List.append_assoc] at hm
    rcases List.mem_append.mp hm with h1 | h1
    · exact absurd h1 h
    · rcases List.mem_append.mp h1 with h2 | h2
      · simp at h2
      · rcases hall _ h2 with h3 | h3 | ⟨t, h3⟩ <;> simp at h3
  | error e1 =>
    cases hq : Git.pushSetUpstream env with
    | error e2 =>
      intro hok hm
      simp at hok
    | ok u =>
      intro hok hm
      rw [afterPush_state]

theorem pushAndTicket_ticket (env : GitEnv) (st : GitState) (m : String)
    (tr : List Event) (h : ∀ m2, Event.ticketCreateEv m2 ∉ tr) :
    ((∃ m2, Event.ticketCreateEv m2 ∈ (pushAndTicket env st m tr).trace) ↔
      ((pushAndTicket env st m tr).result = RunResult.ok ∧
        exceptD false (Git.isFirstPushToBranch env st) = true ∧
        Git.isMainBranch env = false ∧ Jira.isConfigured env = true)) := by
  unfold pushAndTicket
  dsimp only
  cases hp : Git.push env with
  | ok u =>
    rw [afterPush_ticket env st _ _ m _ (by
      intro m2 hm2
      rcases List.mem_append.mp hm2 with h1 | h1
      · exact absurd h1 (h m2)
      · simp at h1)]
    simp [afterPush_result]
  | error e1 =>
    cases hq : Git.pushSetUpstream env with
    | error e2 =>
      constructor
      · intro ⟨m2, hm2⟩
        rcases List.mem_append.mp hm2 with h1 | h1
        · rcases List.mem_append.mp h1 with h2 | h2
          · exact absurd h2 (h m2)
          · simp at h2
        · simp at h1
      · intro hrhs
        simp at hrhs
    | ok u =>
      rw [afterPush_ticket env { st with hasUpstream := true } _ _ m _ (by
        intro m2 hm2
        rcases List.mem_append.mp hm2 with h1 | h1
        · rcases List.mem_append.mp h1 with h2 | h2
          · exact absurd h2 (h m2)
          · simp at h2
        · simp at h1)]
      simp [afterPush_result]

theorem pushAndTicket_ticket_msg (env : GitEnv) (st : GitState) (m : String)
    (tr : List Event) :
    ∀ m2, Event.ticketCreateEv m2 ∈ (pushAndTicket env st m tr).trace →
      Event.ticketCreateEv m2 ∈ tr ∨ m2 = m := by
  intro m2 hm2
  obtain ⟨rest, hr, hall⟩ := pushAndTicket_trace env st m tr
  rw [hr] at hm2
  rw [List.append_assoc] at hm2
  rcases List.mem_append.mp hm2 with h1 | h1
  · exact Or.inl h1
  · rcases List.mem_append.mp h1 with h2 | h2
    · simp at h2
    · rcases hall _ h2 with h3 | h3 | h3 | ⟨t, h3⟩ <;> simp at h3
      exact Or.inr h3

theorem pushAndTicket_upstreamEv (env : GitEnv) (st : GitState) (m : String)
    (tr : List Event) (h : Event.pushUpstreamEv ∉ tr) :
    (Event.pushUpstreamEv ∈ (pushAndTicket env st m tr).trace ↔
      isErr (Git.push env) = true) := by
  unfold pushAndTicket
  dsimp only
  cases hp : Git.push env with
  | ok u =>
    obtain ⟨r, hr, hall⟩ := afterPush_trace env st
      (exceptD false (Git.isFirstPushToBranch env st)) (Git.isMainBranch env)
      m (tr ++ [Event.snapshotFirstPush
          (exceptD false (Git.isFirstPushToBranch env st)),
        Event.snapshotMainBranch (Git.isMainBranch env), Event.pushPlainEv])
    rw [hr]
    simp only [isErr]
    constructor
    · intro hm
      rw [List.append_assoc] at hm
      rcases List.mem_append.mp hm with h1 | h1
      · exact absurd h1 h
      · rcases List.mem_append.mp h1 with h2 | h2
        · simp at h2
        · rcases hall _ h2 with h3 | h3 | ⟨t, h3⟩ <;> simp at h3
    · intro hfalse
      simp at hfalse
  | error e1 =>
    cases hq : Git.pushSetUpstream env with
    | error e2 =>
      simp [isErr]
    | ok u =>
      obtain ⟨r, hr, hall⟩ := afterPush_trace env { st with hasUpstream := true }
        (exceptD false (Git.isFirstPushToBranch env st)) (Git.isMainBranch env)
        m ((tr ++ [Event.snapshotFirstPush
            (exceptD false (Git.isFirstPushToBranch env st)),
          Event.snapshotMainBranch (Git.isMainBranch env), Event.pushPlainEv])
          ++ [Event.pushUpstreamEv])
      rw [hr]
      simp [isErr]

theorem pushAndTicket_countPlain (env : GitEnv) (st : GitState) (m : String)
    (tr : List Event) :
    countE Event.pushPlainEv (pushAndTicket env st m tr).trace =
      countE Event.pushPlainEv tr + 1 := by
  obtain ⟨rest, hr, hall⟩ := pushAndTicket_trace env st m tr
  rw [hr, countE_append, countE_append]
  have h1 : countE Event.pushPlainEv
      [Event.snapshotFirstPush
          (exceptD false (Git.isFirstPushToBranch env st)),
        Event.snapshotMainBranch (Git.isMainBranch env),
        Event.pushPlainEv] = 1 := by
    rw [countE_cons, countE_cons, countE_cons]
    simp [countE]
  have h2 : countE Event.pushPlainEv rest = 0 := by
    apply countE_eq_zero
    intro x hx
    rcases hall x hx with h3 | h3 | h3 | ⟨t, h3⟩ <;> simp [h3]
  omega

theorem pushAndTicket_countUp (env : GitEnv) (st : GitState) (m : String)
    (tr : List Event) :
    countE Event.pushUpstreamEv (pushAndTicket env st m tr).trace =
      countE Event.pushUpstreamEv tr +
        (if isErr (Git.push env) = true then 1 else 0) := by
  unfold pushAndTicket
  dsimp only
  cases hp : Git.push env with
  | ok u =>
    obtain ⟨r, hr, hall⟩ := afterPush_trace env st
      (exceptD false (Git.isFirstPushToBranch env st)) (Git.isMainBranch env)
      m (tr ++ [Event.snapshotFirstPush
          (exceptD false (Git.isFirstPushToBranch env st)),
        Event.snapshotMainBranch (Git.isMainBranch env), Event.pushPlainEv])
    rw [hr, countE_append, countE_append]
    have h1 : countE Event.pushUpstreamEv
        [Event.snapshotFirstPush
            (exceptD false (Git.isFirstPushToBranch env st)),
          Event.snapshotMainBranch (Git.isMainBranch env),
          Event.pushPlainEv] = 0 := by
      apply countE_eq_zero
      intro x hx
      simp only [List.mem_cons, List.not_mem_nil, or_false] at hx
      rcases hx with h3 | h3 | h3 <;> simp [h3]
    have h2 : countE Event.pushUpstreamEv r = 0 := by
      apply countE_eq_zero
      intro x hx
      rcases hall x hx with h3 | h3 | ⟨t, h3⟩ <;> simp [h3]
    simp [isErr]
    omega
  | error e1 =>
    cases hq : Git.pushSetUpstream env with
    | error e2 =>
      rw [countE_append, countE_append]
      have h1 : countE Event.pushUpstreamEv
          [Event.snapshotFirstPush
              (exceptD false (Git.isFirstPushToBranch env st)),
            Event.snapshotMainBranch (Git.isMainBranch env),
            Event.pushPlainEv] = 0 := by
        apply countE_eq_zero
        intro x hx
        simp only [List.mem_cons, List.not_mem_nil, or_false] at hx
        rcases hx with h3 | h3 | h3 <;> simp [h3]
      rw [countE_single_self]
      simp [isErr]
      omega
    | ok u =>
      obtain ⟨r, hr, hall⟩ := afterPush_trace env { st with hasUpstream := true }
        (exceptD false (Git.isFirstPushToBranch env st)) (Git.isMainBranch env)
        m ((tr ++ [Event.snapshotFirstPush
            (exceptD false (Git.isFirstPushToBranch env st)),
          Event.snapshotMainBranch (Git.isMainBranch env), Event.pushPlainEv])
          ++ [Event.pushUpstreamEv])
      rw [hr, countE_append, countE_append, countE_append]
      have h1 : countE Event.pushUpstreamEv
          [Event.snapshotFirstPush
              (exceptD false (Git.isFirstPushToBranch env st)),
            Event.snapshotMainBranch (Git.isMainBranch env),
            Event.pushPlainEv] = 0 := by
        apply countE_eq_zero
        intro x hx
        simp only [List.mem_cons, List.not_mem_nil, or_false] at hx
        rcases hx with h3 | h3 | h3 <;> simp [h3]
      have h2 : countE Event.pushUpstreamEv r = 0 := by
        apply countE_eq_zero
        intro x hx
        rcases hall x hx with h3 | h3 | ⟨t, h3⟩ <;> simp [h3]
      rw [countE_single_self]
      simp [isErr]
      omega

/- ===== pre-push trace lemmas ===== -/

theorem preOnly_nil {env : GitEnv} : preOnly env [] := by
  intro e he
  simp at he

theorem preOnly_append {env : GitEnv} {t1 t2 : List Event}
    (h1 : preOnly env t1) (h2 : preOnly env t2) : preOnly env (t1 ++ t2) := by
  intro e he
  rcases List.mem_append.mp he with h | h
  · exact h1 e h
  · exact h2 e h

theorem preOnly_stage {env : GitEnv} : preOnly env [Event.stageAllEv] := by
  intro e he
  simp only [List.mem_cons, List.not_mem_nil, or_false] at he
  exact Or.inl he

theorem preOnly_tr0 {env : GitEnv} {b : Bool} :
    preOnly env (if b then [Event.stageAllEv] else []) := by
  by_cases hb : b = true
  · rw [if_pos hb]
    exact preOnly_stage
  · rw [if_neg hb]
    exact preOnly_nil

theorem preOnly_prompt {env : GitEnv} : preOnly env [Event.promptMessage] := by
  intro e he
  simp only [List.mem_cons, List.not_mem_nil, or_false] at he
  exact Or.inr (Or.inr (Or.inl he))

theorem preOnly_promptPush {env : GitEnv} : preOnly env [Event.promptPush] := by
  intro e he
  simp only [List.mem_cons, List.not_mem_nil, or_false] at he
  exact Or.inr (Or.inr (Or.inr (Or.inl he)))

theorem preOnly_commit {env : GitEnv} {m : String} :
    preOnly env [Event.commitEv m] := by
  intro e he
  simp only [List.mem_cons, List.not_mem_nil, or_false] at he
  exact Or.inr (Or.inr (Or.inr (Or.inr ⟨m, he⟩)))

theorem preOnly_gen {env : GitEnv} {d : String} :
    preOnly env [Event.generateEv d (exceptD [] (Git.getChangedFiles env))] := by
  intro e he
  simp only [List.mem_cons, List.not_mem_nil, or_false] at he
  exact Or.inr (Or.inl ⟨d, he⟩)

theorem preOnly_evs {env : GitEnv} {evs : List Event}
    (h : evs = [] ∨ evs = [Event.promptMessage]) : preOnly env evs := by
  rcases h with h | h <;> subst h
  · exact preOnly_nil
  · exact preOnly_prompt

/- ===== confirmation step characterization ===== -/

theorem confirmMessage_cases (a : Bool) (ci : String) (el : List String)
    (msg : String) :
    ∃ evs, (evs = [] ∨ evs = [Event.promptMessage]) ∧
      ((confirmMessage a ci el msg = (none, evs) ∧ a = false ∧
          (parseConfirm ci = ConfirmDecision.reject ∨
           parseConfirm ci = ConfirmDecision.invalid)) ∨
       (∃ m2, confirmMessage a ci el msg = (some m2, evs) ∧
          (a = false →
            parseConfirm ci ≠ ConfirmDecision.reject ∧
            parseConfirm ci ≠ ConfirmDecision.invalid))) := by
  unfold confirmMessage
  by_cases ha : a = true
  · rw [if_pos ha]
    exact ⟨[], Or.inl rfl, Or.inr ⟨msg, rfl, by simp [ha]⟩⟩
  · rw [if_neg ha]
    have ha2 : a = false := by
      cases a
      · rfl
      · exact absurd rfl ha
    cases hp : parseConfirm ci with
    | reject =>
      exact ⟨[Event.promptMessage], Or.inr rfl, Or.inl ⟨rfl, ha2, Or.inl rfl⟩⟩
    | invalid =>
      exact ⟨[Event.promptMessage], Or.inr rfl, Or.inl ⟨rfl, ha2, Or.inr rfl⟩⟩
    | accept =>
      exact ⟨[Event.promptMessage], Or.inr rfl,
        Or.inr ⟨msg, rfl, fun _ => by simp [hp]⟩⟩
    | edit =>
      by_cases hl : (collectEditLines el []).length > 0
      · rw [if_pos hl]
        exact ⟨[Event.promptMessage], Or.inr rfl,
          Or.inr ⟨String.intercalate "\n" (collectEditLines el []), rfl,
            fun _ => by simp [hp]⟩⟩
      · rw [if_neg hl]
        exact ⟨[Event.promptMessage], Or.inr rfl,
          Or.inr ⟨msg, rfl, fun _ => by simp [hp]⟩⟩

/- ===== run shape lemmas ===== -/

theorem commitAndPush_shape (env : GitEnv) (s0 : GitState) (needsCommit : Bool)
    (m : String) (tr : List Event) :
    (∃ e2, commitAndPush env s0 needsCommit m tr =
        ⟨RunResult.fail ("failed to commit: " ++ e2),
          tr ++ [Event.commitEv m], s0⟩) ∨
    (∃ tr2, commitAndPush env s0 needsCommit m tr = pushAndTicket env s0 m tr2 ∧
      (tr2 = tr ∨ tr2 = tr ++ [Event.commitEv m])) := by
  unfold commitAndPush
  by_cases hn : needsCommit = true
  · rw [if_pos hn]
    dsimp only
    cases hc : env.commitResult with
    | error e => exact Or.inl ⟨e, rfl⟩
    | ok u => exact Or.inr ⟨tr ++ [Event.commitEv m], rfl, Or.inr rfl⟩
  · rw [if_neg hn]
    exact Or.inr ⟨tr, rfl, Or.inl rfl⟩

theorem pushxGenerate_shape (env : GitEnv) (flags : Flags) (inp : UserInput)
    (s0 : GitState) (tr0 : List Event) (diff : String) (needsCommit : Bool)
    (h : preOnly env tr0) :
    (∃ r tr, pushxGenerate env flags inp s0 tr0 diff needsCommit = ⟨r, tr, s0⟩ ∧
        preOnly env tr) ∨
    (∃ m tr, pushxGenerate env flags inp s0 tr0 diff needsCommit =
        pushAndTicket env s0 m tr ∧ preOnly env tr ∧
        (flags.autoConfirm = false →
          parseConfirm inp.confirmInput ≠ ConfirmDecision.reject ∧
          parseConfirm inp.confirmInput ≠ ConfirmDecision.invalid)) := by
  unfold pushxGenerate
  dsimp only
  by_cases hd : diff = ""
  · rw [if_pos hd]
    exact Or.inl ⟨_, tr0, rfl, h⟩
  · rw [if_neg hd]
    cases hg : env.genResult with
    | error e =>
      exact Or.inl ⟨_, _, rfl, preOnly_append h preOnly_gen⟩
    | ok message =>
      dsimp only
      obtain ⟨evs, hevs, hcase⟩ := confirmMessage_cases flags.autoConfirm
        inp.confirmInput inp.editLines message
      rcases hcase with ⟨heq, _, _⟩ | ⟨m2, heq, himp⟩
      · rw [heq]
        exact Or.inl ⟨_, _, rfl,
          preOnly_append (preOnly_append h preOnly_gen) (preOnly_evs hevs)⟩
      · rw [heq]
        dsimp only
        rcases commitAndPush_shape env s0 needsCommit m2
          ((tr0 ++ [Event.generateEv diff
            (exceptD [] (Git.getChangedFiles env))]) ++ evs) with
          ⟨e2, hf⟩ | ⟨tr2, hf, htr2⟩
        · rw [hf]
          exact Or.inl ⟨_, _, rfl, preOnly_append (preOnly_append
            (preOnly_append h preOnly_gen) (preOnly_evs hevs)) preOnly_commit⟩
        · rw [hf]
          refine Or.inr ⟨m2, tr2, rfl, ?_, himp⟩
          rcases htr2 with h2 | h2 <;> subst h2
          · exact preOnly_append (preOnly_append h preOnly_gen)
              (preOnly_evs hevs)
          · exact preOnly_append (preOnly_append
              (preOnly_append h preOnly_gen) (preOnly_evs hevs)) preOnly_commit

theorem pushxNoStaged_shape (env : GitEnv) (flags : Flags) (inp : UserInput)
    (s0 : GitState) (tr0 : List Event) (diff : String)
    (h : preOnly env tr0) :
    (∃ r tr, pushxNoStaged env flags inp s0 tr0 diff = ⟨r, tr, s0⟩ ∧
        preOnly env tr) ∨
    (∃ m tr, pushxNoStaged env flags inp s0 tr0 diff =
        pushAndTicket env s0 m tr ∧ preOnly env tr ∧
        (flags.autoConfirm = false →
          parseConfirm inp.confirmInput ≠ ConfirmDecision.reject ∧
          parseConfirm inp.confirmInput ≠ ConfirmDecision.invalid)) := by
  unfold pushxNoStaged
  by_cases hd : diff = ""
  · rw [if_pos hd]
    by_cases hu : exceptD false (Git.hasUnstagedChanges env) = true
    · rw [if_pos hu]
      exact Or.inl ⟨_, tr0, rfl, h⟩
    · rw [if_neg hu]
      exact Or.inl ⟨_, tr0, rfl, h⟩
  · rw [if_neg hd]
    exact pushxGenerate_shape env flags inp s0 tr0 diff false h

theorem runPushx_shape (env : GitEnv) (flags : Flags) (inp : UserInput)
    (s0 : GitState) :
    (∃ r tr, runPushx env flags inp s0 = ⟨r, tr, s0⟩ ∧ preOnly env tr) ∨
    (∃ m tr, runPushx env flags inp s0 = pushAndTicket env s0 m tr ∧
      preOnly env tr ∧
      (flags.autoConfirm = false →
        parseConfirm inp.confirmInput ≠ ConfirmDecision.reject ∧
        parseConfirm inp.confirmInput ≠ ConfirmDecision.invalid)) := by
  unfold runPushx
  by_cases hk : env.apiKey = ""
  · rw [if_pos hk]
    exact Or.inl ⟨_, [], rfl, preOnly_nil⟩
  · rw [if_neg hk]
    by_cases hr : env.isRepo = false
    · rw [if_pos hr]
      exact Or.inl ⟨_, [], rfl, preOnly_nil⟩
    · rw [if_neg hr]
      dsimp only
      cases hs : (if flags.stageAll then env.stageAllResult else Except.ok ()) with
      | error e => exact Or.inl ⟨_, _, rfl, preOnly_tr0⟩
      | ok u =>
        cases hh : Git.hasStagedChanges env with
        | error e => exact Or.inl ⟨_, _, rfl, preOnly_tr0⟩
        | ok hasStaged =>
          dsimp only
          by_cases hst : hasStaged = true
          · rw [if_pos hst]
            cases hsd : Git.getStagedDiff env with
            | error e => exact Or.inl ⟨_, _, rfl, preOnly_tr0⟩
            | ok diff =>
              exact pushxGenerate_shape env flags inp s0 _ diff true preOnly_tr0
          · rw [if_neg hst]
            cases hud : Git.getUnpushedDiff env s0 with
            | ok diff =>
              exact pushxNoStaged_shape env flags inp s0 _ diff preOnly_tr0
            | error e1 =>
              cases had : Git.getAllDiff env with
              | error e => exact Or.inl ⟨_, _, rfl, preOnly_tr0⟩
              | ok diff =>
                exact pushxNoStaged_shape env flags inp s0 _ diff preOnly_tr0

theorem runPush_shape (env : GitEnv) (flags : Flags) (inp : UserInput)
    (s0 : GitState) :
    (∃ r tr, runPush env flags inp s0 = ⟨r, tr, s0⟩ ∧ preOnly env tr) ∨
    (∃ m tr, runPush env flags inp s0 = pushAndTicket env s0 m tr ∧
      preOnly env tr) := by
  unfold runPush
  by_cases hk : env.apiKey = ""
  · rw [if_pos hk]
    exact Or.inl ⟨_, [], rfl, preOnly_nil⟩
  · rw [if_neg hk]
    by_cases hr : env.isRepo = false
    · rw [if_pos hr]
      exact Or.inl ⟨_, [], rfl, preOnly_nil⟩
    · rw [if_neg hr]
      dsimp only
      cases hs : (if flags.stageAll then env.stageAllResult else Except.ok ()) with
      | error e => exact Or.inl ⟨_, _, rfl, preOnly_tr0⟩
      | ok u =>
        cases hh : Git.hasStagedChanges env with
        | error e => exact Or.inl ⟨_, _, rfl, preOnly_tr0⟩
        | ok hasStaged =>
          dsimp only
          by_cases hst : hasStaged = true
          · rw [if_pos hst]
            cases hsd : Git.getStagedDiff env with
            | error e => exact Or.inl ⟨_, _, rfl, preOnly_tr0⟩
            | ok diff =>
              cases hg : env.genResult with
              | error e =>
                exact Or.inl ⟨_, _, rfl, preOnly_append preOnly_tr0 preOnly_gen⟩
              | ok message =>
                dsimp only
                obtain ⟨evs, hevs, hcase⟩ := confirmMessage_cases
                  flags.autoConfirm inp.confirmInput inp.editLines message
                rcases hcase with ⟨heq, _, _⟩ | ⟨m2, heq, _⟩
                · rw [heq]
                  exact Or.inl ⟨_, _, rfl, preOnly_append
                    (preOnly_append preOnly_tr0 preOnly_gen)
                    (preOnly_evs hevs)⟩
                · rw [heq]
                  dsimp only
                  rcases commitAndPush_shape env s0 true m2
                    (((if flags.stageAll then [Event.stageAllEv] else []) ++
                      [Event.generateEv diff
                        (exceptD [] (Git.getChangedFiles env))]) ++ evs) with
                    ⟨e2, hf⟩ | ⟨tr2, hf, htr2⟩
                  · rw [hf]
                    exact Or.inl ⟨_, _, rfl, preOnly_append (preOnly_append
                      (preOnly_append preOnly_tr0 preOnly_gen)
                      (preOnly_evs hevs)) preOnly_commit⟩
                  · rw [hf]
                    refine Or.inr ⟨m2, tr2, rfl, ?_⟩
                    rcases htr2 with h2 | h2 <;> subst h2
                    · exact preOnly_append
                        (preOnly_append preOnly_tr0 preOnly_gen)
                        (preOnly_evs hevs)
                    · exact preOnly_append (preOnly_append
                        (preOnly_append preOnly_tr0 preOnly_gen)
                        (preOnly_evs hevs)) preOnly_commit
          · rw [if_neg hst]
            by_cases hu : 0 < (exceptD []
                (Git.getUnpushedCommitMessages env s0)).length
            · rw [if_pos hu]
              by_cases ha : flags.autoConfirm = true
              · rw [if_pos ha]
                exact Or.inr ⟨_, _, rfl, preOnly_tr0⟩
              · rw [if_neg ha]
                by_cases hrj : pushPromptRejects inp.pushConfirmInput = true
                · rw [if_pos hrj]
                  exact Or.inl ⟨_, _, rfl,
                    preOnly_append preOnly_tr0 preOnly_promptPush⟩
                · rw [if_neg hrj]
                  exact Or.inr ⟨_, _, rfl,
                    preOnly_append preOnly_tr0 preOnly_promptPush⟩
            · rw [if_neg hu]
              by_cases hun : exceptD false (Git.hasUnstagedChanges env) = true
              · rw [if_pos hun]
                exact Or.inl ⟨_, _, rfl, preOnly_tr0⟩
              · rw [if_neg hun]
                exact Or.inl ⟨_, _, rfl, preOnly_tr0⟩

/- ===== membership helpers ===== -/

theorem preOnly_not_mem_push {env : GitEnv} {tr : List Event}
    (h : preOnly env tr) : Event.pushPlainEv ∉ tr := by
  intro hm
  rcases h _ hm with h1 | ⟨d, h1⟩ | h1 | h1 | ⟨m, h1⟩ <;> simp at h1

theorem preOnly_not_mem_pushUp {env : GitEnv} {tr : List Event}
    (h : preOnly env tr) : Event.pushUpstreamEv ∉ tr := by
  intro hm
  rcases h _ hm with h1 | ⟨d, h1⟩ | h1 | h1 | ⟨m, h1⟩ <;> simp at h1

theorem preOnly_not_mem_ticket {env : GitEnv} {tr : List Event}
    (h : preOnly env tr) : ∀ m, Event.ticketCreateEv m ∉ tr := by
  intro m hm
  rcases h _ hm with h1 | ⟨d, h1⟩ | h1 | h1 | ⟨m2, h1⟩ <;> simp at h1

theorem preOnly_not_mem_snapshotFP {env : GitEnv} {tr : List Event}
    (h : preOnly env tr) : ∀ v, Event.snapshotFirstPush v ∉ tr := by
  intro v hm
  rcases h _ hm with h1 | ⟨d, h1⟩ | h1 | h1 | ⟨m2, h1⟩ <;> simp at h1

theorem preOnly_gen_files {env : GitEnv} {tr : List Event}
    (h : preOnly env tr) :
    ∀ d f, Event.generateEv d f ∈ tr →
      f = exceptD [] (Git.getChangedFiles env) := by
  intro d f hm
  rcases h _ hm with h1 | ⟨d2, h1⟩ | h1 | h1 | ⟨m2, h1⟩ <;> simp at h1
  exact h1.2

theorem pushAndTicket_mem (env : GitEnv) (st : GitState) (m : String)
    (tr : List Event) :
    ∀ e ∈ (pushAndTicket env st m tr).trace, e ∈ tr ∨
      e = Event.snapshotFirstPush
        (exceptD false (Git.isFirstPushToBranch env st)) ∨
      e = Event.snapshotMainBranch (Git.isMainBranch env) ∨
      e = Event.pushPlainEv ∨ e = Event.pushUpstreamEv ∨
      e = Event.ticketCreateEv m ∨ e = Event.ticketWarnEv ∨
      ∃ t, e = Event.ticketOkEv t := by
  intro e he
  obtain ⟨rest, hr, hall⟩ := pushAndTicket_trace env st m tr
  rw [hr, List.append_assoc] at he
  rcases List.mem_append.mp he with h1 | h1
  · exact Or.inl h1
  · rcases List.mem_append.mp h1 with h2 | h2
    · simp only [List.mem_cons, List.not_mem_nil, or_false] at h2
      rcases h2 with h3 | h3 | h3
      · exact Or.inr (Or.inl h3)
      · exact Or.inr (Or.inr (Or.inl h3))
      · exact Or.inr (Or.inr (Or.inr (Or.inl h3)))
    · rcases hall _ h2 with h3 | h3 | h3 | h3
      · exact Or.inr (Or.inr (Or.inr (Or.inr (Or.inl h3))))
      · exact Or.inr (Or.inr (Or.inr (Or.inr (Or.inr (Or.inl h3)))))
      · exact Or.inr (Or.inr (Or.inr (Or.inr (Or.inr (Or.inr (Or.inl h3))))))
      · exact Or.inr (Or.inr (Or.inr (Or.inr (Or.inr (Or.inr (Or.inr h3))))))

theorem pushAndTicket_mem_of_mem (env : GitEnv) (st : GitState) (m : String)
    (tr : List Event) {e : Event} (h : e ∈ tr) :
    e ∈ (pushAndTicket env st m tr).trace := by
  obtain ⟨rest, hr, _⟩ := pushAndTicket_trace env st m tr
  rw [hr, List.append_assoc]
  exact List.mem_append_left _ h

theorem pushAndTicket_snapshot (env : GitEnv) (st : GitState) (m : String)
    (tr : List Event) (h : ∀ v, Event.snapshotFirstPush v ∉ tr) :
    ∀ v, Event.snapshotFirstPush v ∈ (pushAndTicket env st m tr).trace →
      v = exceptD false (Git.isFirstPushToBranch env st) := by
  intro v hv
  rcases pushAndTicket_mem env st m tr _ hv with
    h1 | h1 | h1 | h1 | h1 | h1 | h1 | ⟨t, h1⟩
  · exact absurd h1 (h v)
  · injection h1
  all_goals simp at h1

theorem pushAndTicket_gen (env : GitEnv) (st : GitState) (m : String)
    (tr : List Event) :
    ∀ d f, Event.generateEv d f ∈ (pushAndTicket env st m tr).trace →
      Event.generateEv d f ∈ tr := by
  intro d f hm
  rcases pushAndTicket_mem env st m tr _ hm with
    h1 | h1 | h1 | h1 | h1 | h1 | h1 | ⟨t, h1⟩
  · exact h1
  all_goals simp at h1

theorem pushAndTicket_promptMsg (env : GitEnv) (st : GitState) (m : String)
    (tr : List Event) :
    Event.promptMessage ∈ (pushAndTicket env st m tr).trace →
      Event.promptMessage ∈ tr := by
  intro hm
  rcases pushAndTicket_mem env st m tr _ hm with
    h1 | h1 | h1 | h1 | h1 | h1 | h1 | ⟨t, h1⟩
  · exact h1
  all_goals simp at h1

/- ===== the gating predicate, rephrased on the branch name ===== -/

theorem gate_iff (env : GitEnv) (s0 : GitState) :
    (exceptD false (Git.isFirstPushToBranch env s0) = true ∧
      Git.isMainBranch env = false) ↔
    (s0.hasUpstream = false ∧
      ∃ b, env.branch = Except.ok b ∧ b ≠ "main" ∧ b ≠ "master") := by
  unfold Git.isFirstPushToBranch Git.isMainBranch
  cases hb : env.branch with
  | error e => simp [exceptD]
  | ok b =>
    simp only [exceptD, Bool.not_eq_true', Except.ok.injEq,
      decide_eq_false_iff_not, not_or]
    constructor
    · intro ⟨h1, h2⟩
      exact ⟨h1, b, rfl, h2.1, h2.2⟩
    · intro ⟨h1, b2, hb2, h3, h4⟩
      subst hb2
      exact ⟨h1, h3, h4⟩

/- ===== claims ===== -/

/-- C1: for every run of either command handler that reaches a successful
push, a ticket creation is attempted if and only if the hasUpstream value
snapshotted before the push is false, the branch name is readable and neither
"main" nor "master", and the Jira client reports itself configured; under any
other combination no ticket creation is attempted. -/
theorem C1_ticket_gating (env : GitEnv) (flags : Flags) (inp : UserInput)
    (s0 : GitState) :
    ((runPushx env flags inp s0).result = RunResult.ok →
      Event.pushPlainEv ∈ (runPushx env flags inp s0).trace →
      ((∃ m, Event.ticketCreateEv m ∈ (runPushx env flags inp s0).trace) ↔
        (s0.hasUpstream = false ∧
          (∃ b, env.branch = Except.ok b ∧ b ≠ "main" ∧ b ≠ "master") ∧
          Jira.isConfigured env = true))) ∧
    ((runPush env flags inp s0).result = RunResult.ok →
      Event.pushPlainEv ∈ (runPush env flags inp s0).trace →
      ((∃ m, Event.ticketCreateEv m ∈ (runPush env flags inp s0).trace) ↔
        (s0.hasUpstream = false ∧
          (∃ b, env.branch = Except.ok b ∧ b ≠ "main" ∧ b ≠ "master") ∧
          Jira.isConfigured env = true))) := by
  constructor
  · intro hok hin
    rcases runPushx_shape env flags inp s0 with
      ⟨r, tr, heq, hpre⟩ | ⟨m, tr, heq, hpre, _⟩
    · rw [heq] at hin
      exact absurd hin (preOnly_not_mem_push hpre)
    · rw [heq] at hok hin ⊢
      rw [pushAndTicket_ticket env s0 m tr (preOnly_not_mem_ticket hpre)]
      rw [hok]
      constructor
      · intro ⟨_, h1, h2, h3⟩
        obtain ⟨g1, g2⟩ := (gate_iff env s0).mp ⟨h1, h2⟩
        exact ⟨g1, g2, h3⟩
      · intro ⟨h1, h2, h3⟩
        obtain ⟨g1, g2⟩ := (gate_iff env s0).mpr ⟨h1, h2⟩
        exact ⟨rfl, g1, g2, h3⟩
  · intro hok hin
    rcases runPush_shape env flags inp s0 with
      ⟨r, tr, heq, hpre⟩ | ⟨m, tr, heq, hpre⟩
    · rw [heq] at hin
      exact absurd hin (preOnly_not_mem_push hpre)
    · rw [heq] at hok hin ⊢
      rw [pushAndTicket_ticket env s0 m tr (preOnly_not_mem_ticket hpre)]
      rw [hok]
      constructor
      · intro ⟨_, h1, h2, h3⟩
        obtain ⟨g1, g2⟩ := (gate_iff env s0).mp ⟨h1, h2⟩
        exact ⟨g1, g2, h3⟩
      · intro ⟨h1, h2, h3⟩
        obtain ⟨g1, g2⟩ := (gate_iff env s0).mpr ⟨h1, h2⟩
        exact ⟨rfl, g1, g2, h3⟩

/-- C1 witness: in the healthy environment on branch "feature/x" with no
upstream and Jira configured, the gating equivalence holds concretely. -/
theorem C1_ticket_gating_witness :
    (∃ m, Event.ticketCreateEv m ∈
      (runPushx envHappy flagsAuto inpEmpty ⟨false⟩).trace) ↔
    ((⟨false⟩ : GitState).hasUpstream = false ∧
      (∃ b, envHappy.branch = Except.ok b ∧ b ≠ "main" ∧ b ≠ "master") ∧
      Jira.isConfigured envHappy = true) :=
  (C1_ticket_gating envHappy flagsAuto inpEmpty ⟨false⟩).1 (by decide) (by decide)

/-- C2: in every run of either command handler that reaches the push, the
first-push and main-branch indicators are snapshotted from the pre-push state
strictly before any push event, every attempted ticket creation implies the
pre-push snapshot was true, and a successful upstream-setting push leaves the
final state with an upstream even though the snapshot was taken before. -/
theorem C2_snapshot_before_push (env : GitEnv) (flags : Flags)
    (inp : UserInput) (s0 : GitState) :
    (Event.pushPlainEv ∈ (runPushx env flags inp s0).trace →
      ((∃ pre rest, (runPushx env flags inp s0).trace = pre ++
          Event.snapshotFirstPush
            (exceptD false (Git.isFirstPushToBranch env s0)) ::
          Event.snapshotMainBranch (Git.isMainBranch env) ::
          Event.pushPlainEv :: rest ∧
          Event.pushPlainEv ∉ pre ∧ Event.pushUpstreamEv ∉ pre) ∧
        (∀ m, Event.ticketCreateEv m ∈ (runPushx env flags inp s0).trace →
          exceptD false (Git.isFirstPushToBranch env s0) = true) ∧
        ((runPushx env flags inp s0).result = RunResult.ok →
          Event.pushUpstreamEv ∈ (runPushx env flags inp s0).trace →
          (runPushx env flags inp s0).state.hasUpstream = true))) ∧
    (Event.pushPlainEv ∈ (runPush env flags inp s0).trace →
      ((∃ pre rest, (runPush env flags inp s0).trace = pre ++
          Event.snapshotFirstPush
            (exceptD false (Git.isFirstPushToBranch env s0)) ::
          Event.snapshotMainBranch (Git.isMainBranch env) ::
          Event.pushPlainEv :: rest ∧
          Event.pushPlainEv ∉ pre ∧ Event.pushUpstreamEv ∉ pre) ∧
        (∀ m, Event.ticketCreateEv m ∈ (runPush env flags inp s0).trace →
          exceptD false (Git.isFirstPushToBranch env s0) = true) ∧
        ((runPush env flags inp s0).result = RunResult.ok →
          Event.pushUpstreamEv ∈ (runPush env flags inp s0).trace →
          (runPush env flags inp s0).state.hasUpstream = true))) := by
  constructor
  · intro hin
    rcases runPushx_shape env flags inp s0 with
      ⟨r, tr, heq, hpre⟩ | ⟨m, tr, heq, hpre, _⟩
    · rw [heq] at hin
      exact absurd hin (preOnly_not_mem_push hpre)
    · rw [heq]
      refine ⟨?_, ?_, ?_⟩
      · obtain ⟨rest, hr, _⟩ := pushAndTicket_trace env s0 m tr
        refine ⟨tr, rest, ?_, preOnly_not_mem_push hpre,
          preOnly_not_mem_pushUp hpre⟩
        rw [hr]
        simp
      · intro m2 hm2
        exact ((pushAndTicket_ticket env s0 m tr
          (preOnly_not_mem_ticket hpre)).mp ⟨m2, hm2⟩).2.1
      · intro hok hup
        exact pushAndTicket_state env s0 m tr
          (preOnly_not_mem_pushUp hpre) hok hup
  · intro hin
    rcases runPush_shape env flags inp s0 with
      ⟨r, tr, heq, hpre⟩ | ⟨m, tr, heq, hpre⟩
    · rw [heq] at hin
      exact absurd hin (preOnly_not_mem_push hpre)
    · rw [heq]
      refine ⟨?_, ?_, ?_⟩
      · obtain ⟨rest, hr, _⟩ := pushAndTicket_trace env s0 m tr
        refine ⟨tr, rest, ?_, preOnly_not_mem_push hpre,
          preOnly_not_mem_pushUp hpre⟩
        rw [hr]
        simp
      · intro m2 hm2
        exact ((pushAndTicket_ticket env s0 m tr
          (preOnly_not_mem_ticket hpre)).mp ⟨m2, hm2⟩).2.1
      · intro hok hup
        exact pushAndTicket_state env s0 m tr
          (preOnly_not_mem_pushUp hpre) hok hup

/-- C2 witness: a healthy first-push run reaches the push, so the snapshot
ordering and pre-push values hold concretely. -/
theorem C2_snapshot_before_push_witness :
    (∃ pre rest, (runPushx envHappy flagsAuto inpEmpty ⟨false⟩).trace = pre ++
        Event.snapshotFirstPush
          (exceptD false (Git.isFirstPushToBranch envHappy ⟨false⟩)) ::
        Event.snapshotMainBranch (Git.isMainBranch envHappy) ::
        Event.pushPlainEv :: rest ∧
        Event.pushPlainEv ∉ pre ∧ Event.pushUpstreamEv ∉ pre) ∧
    (∀ m, Event.ticketCreateEv m ∈
        (runPushx envHappy flagsAuto inpEmpty ⟨false⟩).trace →
      exceptD false (Git.isFirstPushToBranch envHappy ⟨false⟩) = true) ∧
    ((runPushx envHappy flagsAuto inpEmpty ⟨false⟩).result = RunResult.ok →
      Event.pushUpstreamEv ∈
        (runPushx envHappy flagsAuto inpEmpty ⟨false⟩).trace →
      (runPushx envHappy flagsAuto inpEmpty ⟨false⟩).state.hasUpstream = true) :=
  (C2_snapshot_before_push envHappy flagsAuto inpEmpty ⟨false⟩).1 (by decide)

/-- C4: whenever a run of the pushx handler reaches the push step, the plain
push happens exactly once, the upstream-setting retry happens exactly once if
and only if the plain push fails, the run fails only when both attempts fail,
and in that case no ticket creation is attempted. -/
theorem C4_push_retry (env : GitEnv) (flags : Flags) (inp : UserInput)
    (s0 : GitState)
    (h : Event.pushPlainEv ∈ (runPushx env flags inp s0).trace) :
    countE Event.pushPlainEv (runPushx env flags inp s0).trace = 1 ∧
    countE Event.pushUpstreamEv (runPushx env flags inp s0).trace =
      (if isErr (Git.push env) = true then 1 else 0) ∧
    ((runPushx env flags inp s0).result ≠ RunResult.ok ↔
      (isErr (Git.push env) = true ∧ isErr (Git.pushSetUpstream env) = true)) ∧
    (isErr (Git.push env) = true → isErr (Git.pushSetUpstream env) = true →
      ∀ m, Event.ticketCreateEv m ∉ (runPushx env flags inp s0).trace) := by
  rcases runPushx_shape env flags inp s0 with
    ⟨r, tr, heq, hpre⟩ | ⟨m, tr, heq, hpre, _⟩
  · rw [heq] at h
    exact absurd h (preOnly_not_mem_push hpre)
  · rw [heq]
    have hzp : countE Event.pushPlainEv tr = 0 :=
      countE_eq_zero (fun x hx hxe =>
        preOnly_not_mem_push hpre (hxe ▸ hx))
    have hzu : countE Event.pushUpstreamEv tr = 0 :=
      countE_eq_zero (fun x hx hxe =>
        preOnly_not_mem_pushUp hpre (hxe ▸ hx))
    refine ⟨?_, ?_, ?_, ?_⟩
    · rw [pushAndTicket_countPlain, hzp]
    · rw [pushAndTicket_countUp, hzu]
      simp
    · constructor
      · intro hne
        by_contra hc
        exact hne ((pushAndTicket_result env s0 m tr).mpr hc)
      · intro hab hok
        exact ((pushAndTicket_result env s0 m tr).mp hok) hab
    · intro ha hb m2 hm2
      have := ((pushAndTicket_ticket env s0 m tr
        (preOnly_not_mem_ticket hpre)).mp ⟨m2, hm2⟩).1
      rw [pushAndTicket_result] at this
      exact this ⟨ha, hb⟩

/-- C4 witness: a healthy run reaches the push; the counts and the failure
characterization hold concretely. -/
theorem C4_push_retry_witness :
    countE Event.pushPlainEv
      (runPushx envHappy flagsAuto inpEmpty ⟨false⟩).trace = 1 ∧
    countE Event.pushUpstreamEv
      (runPushx envHappy flagsAuto inpEmpty ⟨false⟩).trace =
      (if isErr (Git.push envHappy) = true then 1 else 0) :=
  ⟨(C4_push_retry envHappy flagsAuto inpEmpty ⟨false⟩ (by decide)).1,
   (C4_push_retry envHappy flagsAuto inpEmpty ⟨false⟩ (by decide)).2.1⟩

/-- C9: once a run of the pushx handler has pushed successfully its result is
success no matter what the Jira oracle returns; and the returned value of
createIssueWithTitle depends only on issue creation, never on the
in-progress transition outcome. -/
theorem C9_ticket_nonfatal (env : GitEnv) (flags : Flags) (inp : UserInput)
    (s0 : GitState) :
    (Event.pushPlainEv ∈ (runPushx env flags inp s0).trace →
      ¬(isErr (Git.push env) = true ∧
        isErr (Git.pushSetUpstream env) = true) →
      (runPushx env flags inp s0).result = RunResult.ok) ∧
    (∀ m k, env.createIssueKey = Except.ok k →
      Jira.createIssueWithTitle env m = Except.ok (k ++ " - " ++ m)) ∧
    (∀ m e, env.createIssueKey = Except.error e →
      Jira.createIssueWithTitle env m =
        Except.error ("failed to create issue: " ++ e)) := by
  refine ⟨?_, ?_, ?_⟩
  · intro hin hnf
    rcases runPushx_shape env flags inp s0 with
      ⟨r, tr, heq, hpre⟩ | ⟨m, tr, heq, hpre, _⟩
    · rw [heq] at hin
      exact absurd hin (preOnly_not_mem_push hpre)
    · rw [heq]
      rw [pushAndTicket_result]
      exact hnf
  · intro m k hk
    unfold Jira.createIssueWithTitle
    rw [hk]
  · intro m e he
    unfold Jira.createIssueWithTitle
    rw [he]

/-- C9 witness: with a failing Jira creation oracle the healthy run still
exits successfully after its push. -/
theorem C9_ticket_nonfatal_witness :
    (runPushx { envHappy with createIssueKey := Except.error "http 500" }
      flagsAuto inpEmpty ⟨false⟩).result = RunResult.ok :=
  (C9_ticket_nonfatal { envHappy with createIssueKey := Except.error "http 500" }
    flagsAuto inpEmpty ⟨false⟩).1 (by decide) (by decide)

/-- C10: the confirmation decision is computed from the lowercased then
trimmed input, so it is invariant under surrounding whitespace and under
(ASCII) lowercasing, and the sample inputs decide exactly as their lowercase
trimmed forms do. -/
theorem C10_confirm_normalization :
    (∀ s, parseConfirm s = confirmSwitch (trimSpaceGo (toLowerGo s))) ∧
    (∀ s pre post, (∀ c ∈ pre, isSpaceChar c = true) →
      (∀ c ∈ post, isSpaceChar c = true) →
      parseConfirm (String.mk (pre ++ s.data ++ post)) = parseConfirm s) ∧
    (∀ s, parseConfirm (toLowerGo s) = parseConfirm s) ∧
    parseConfirm "Y" = ConfirmDecision.accept ∧
    parseConfirm " yes " = ConfirmDecision.accept ∧
    parseConfirm "y" = ConfirmDecision.accept ∧
    parseConfirm "yes" = ConfirmDecision.accept ∧
    parseConfirm "" = ConfirmDecision.accept ∧
    parseConfirm "N" = ConfirmDecision.reject ∧
    parseConfirm "n" = ConfirmDecision.reject ∧
    parseConfirm "NO" = ConfirmDecision.reject ∧
    parseConfirm "no" = ConfirmDecision.reject ∧
    parseConfirm "E" = ConfirmDecision.edit ∧
    parseConfirm "e" = ConfirmDecision.edit ∧
    parseConfirm "Edit" = ConfirmDecision.edit ∧
    parseConfirm "edit" = ConfirmDecision.edit := by
  refine ⟨fun s => rfl,
    fun s pre post hp hq => parseConfirm_pad s pre post hp hq,
    parseConfirm_toLower, ?_, ?_, ?_, ?_, ?_, ?_, ?_, ?_, ?_, ?_, ?_, ?_, ?_⟩
  all_goals decide

/-- C10 witness: wrapping "YES" in whitespace does not change the decision. -/
theorem C10_confirm_normalization_witness :
    parseConfirm (String.mk ([' '] ++ "YES".data ++ [' ', '\t'])) =
      parseConfirm "YES" :=
  C10_confirm_normalization.2.1 "YES" [' '] [' ', '\t'] (by decide) (by decide)

/- ===== C6: remote resolution ===== -/

theorem splitCharList_ne_nil (sep : Char) (l : List Char) :
    splitCharList sep l ≠ [] := by
  cases l with
  | nil => simp [splitCharList]
  | cons c cs =>
    unfold splitCharList
    by_cases h : c = sep
    · rw [if_pos h]
      simp
    · rw [if_neg h]
      cases hs : splitCharList sep cs <;> simp

theorem splitLines_ne_nil (s : String) : splitLines s ≠ [] := by
  unfold splitLines
  intro h
  rw [List.map_eq_nil_iff] at h
  exact splitCharList_ne_nil _ _ h

/-- C6: when no remote exists, `git remote` succeeds with empty output and
GetRemote returns the empty string with a nil error; the "no remote
configured" guard can never fire, because splitting any successful output
yields a nonempty list. -/
theorem C6_getRemote_no_remote :
    Git.getRemote envNoRemote = Except.ok "" ∧
    (∀ env2 out, env2.remoteOutput = Except.ok out →
      Git.getRemote env2 ≠ Except.error "no remote configured") ∧
    (∀ env2 e, Git.getRemote env2 = Except.error e →
      env2.remoteOutput = Except.error e) := by
  refine ⟨rfl, ?_, ?_⟩
  · intro env2 out h2
    unfold Git.getRemote
    rw [h2]
    dsimp only
    rcases hsp : splitLines out with _ | ⟨r0, rest⟩
    · exact absurd hsp (splitLines_ne_nil out)
    · dsimp only
      by_cases ho : (r0 :: rest).contains "origin" = true
      · rw [if_pos ho]
        simp
      · rw [if_neg ho]
        simp
  · intro env2 e he
    revert he
    unfold Git.getRemote
    cases h2 : env2.remoteOutput with
    | error e2 =>
      intro he
      injection he with he
      rw [he]
    | ok out =>
      intro he
      exfalso
      revert he
      dsimp only
      rcases hsp : splitLines out with _ | ⟨r0, rest⟩
      · exact fun _ => absurd hsp (splitLines_ne_nil out)
      · dsimp only
        by_cases ho : (r0 :: rest).contains "origin" = true
        · rw [if_pos ho]
          intro he
          exact Except.noConfusion he
        · rw [if_neg ho]
          intro he
          exact Except.noConfusion he

/-- C6 witness: the guard cannot fire in the healthy environment either. -/
theorem C6_getRemote_no_remote_witness :
    Git.getRemote envHappy ≠ Except.error "no remote configured" :=
  C6_getRemote_no_remote.2.1 envHappy "origin" rfl

/- ===== C3: the unpushed-only state ===== -/

theorem runPush_unpushed_cases (env : GitEnv) (flags : Flags)
    (inp : UserInput) (s0 : GitState) (msgs : List String)
    (h1 : Git.hasStagedChanges env = Except.ok false)
    (h2 : Git.getUnpushedCommitMessages env s0 = Except.ok msgs)
    (h3 : msgs ≠ []) :
    (∃ r tr, runPush env flags inp s0 = ⟨r, tr, s0⟩ ∧
      (tr = ([] : List Event) ∨
       tr = (if flags.stageAll then [Event.stageAllEv] else []) ∨
       tr = (if flags.stageAll then [Event.stageAllEv] else []) ++
         [Event.promptPush])) ∨
    (∃ tr, runPush env flags inp s0 =
        pushAndTicket env s0 (extractBasis msgs) tr ∧
      (tr = (if flags.stageAll then [Event.stageAllEv] else []) ∨
       tr = (if flags.stageAll then [Event.stageAllEv] else []) ++
         [Event.promptPush]) ∧
      (flags.autoConfirm = false →
        tr = (if flags.stageAll then [Event.stageAllEv] else []) ++
          [Event.promptPush])) := by
  unfold runPush
  by_cases hk : env.apiKey = ""
  · rw [if_pos hk]
    exact Or.inl ⟨_, [], rfl, Or.inl rfl⟩
  · rw [if_neg hk]
    by_cases hr : env.isRepo = false
    · rw [if_pos hr]
      exact Or.inl ⟨_, [], rfl, Or.inl rfl⟩
    · rw [if_neg hr]
      dsimp only
      cases hs : (if flags.stageAll then env.stageAllResult else Except.ok ()) with
      | error e => exact Or.inl ⟨_, _, rfl, Or.inr (Or.inl rfl)⟩
      | ok u =>
        dsimp only
        rw [h1]
        dsimp only
        rw [h2]
        simp only [exceptD]
        rw [if_neg (by simp)]
        rw [if_pos (List.length_pos.mpr h3)]
        by_cases ha : flags.autoConfirm = true
        · rw [if_pos ha]
          exact Or.inr ⟨_, rfl, Or.inl rfl, fun hf => by rw [hf] at ha; cases ha⟩
        · rw [if_neg ha]
          by_cases hrj : pushPromptRejects inp.pushConfirmInput = true
          · rw [if_pos hrj]
            exact Or.inl ⟨_, _, rfl, Or.inr (Or.inr rfl)⟩
          · rw [if_neg hrj]
            exact Or.inr ⟨_, rfl, Or.inr rfl, fun _ => rfl⟩

/-- C3 counterexample: a pushx run with no staged changes and a nonempty
unpushed commit list still invokes the message generator (on the unpushed
diff) and shows the full message confirmation prompt, contrary to the claim
that no generation happens and only push confirmation is asked. -/
theorem C3_counterexample :
    Git.hasStagedChanges envUnpushedOnly = Except.ok false ∧
    Git.getUnpushedCommitMessages envUnpushedOnly ⟨true⟩ =
      Except.ok ["abc1234 - feat: earlier work"] ∧
    Event.generateEv "diff-u" ["a.go"] ∈
      (runPushx envUnpushedOnly flagsAsk inpEmpty ⟨true⟩).trace ∧
    Event.promptMessage ∈
      (runPushx envUnpushedOnly flagsAsk inpEmpty ⟨true⟩).trace :=
  ⟨rfl, rfl, by decide, by decide⟩

/-- C3 (amended): for every run of the push command variant with no staged
changes and a nonempty unpushed commit sequence, the message generator is
never invoked, the message confirmation prompt is never shown (only the
push confirmation is, on interactive runs that reach the push), and any
attempted ticket creation uses the subject of the most recent unpushed
commit; the pushx handler instead generates a message from the unpushed diff
and asks the full message confirmation (see the counterexample). -/
theorem C3_unpushed_only (env : GitEnv) (flags : Flags) (inp : UserInput)
    (s0 : GitState) (msgs : List String)
    (h1 : Git.hasStagedChanges env = Except.ok false)
    (h2 : Git.getUnpushedCommitMessages env s0 = Except.ok msgs)
    (h3 : msgs ≠ []) :
    (∀ d f, Event.generateEv d f ∉ (runPush env flags inp s0).trace) ∧
    Event.promptMessage ∉ (runPush env flags inp s0).trace ∧
    (flags.autoConfirm = false →
      Event.pushPlainEv ∈ (runPush env flags inp s0).trace →
      Event.promptPush ∈ (runPush env flags inp s0).trace) ∧
    (∀ m, Event.ticketCreateEv m ∈ (runPush env flags inp s0).trace →
      m = extractBasis msgs) := by
  rcases runPush_unpushed_cases env flags inp s0 msgs h1 h2 h3 with
    ⟨r, tr, heq, hopt⟩ | ⟨tr, heq, hopt, himp⟩
  · rw [heq]
    refine ⟨?_, ?_, ?_, ?_⟩
    · intro d f hm
      rcases hopt with ho | ho | ho <;> subst ho <;> revert hm
      · simp
      · split <;> simp
      · split <;> simp
    · intro hm
      rcases hopt with ho | ho | ho <;> subst ho <;> revert hm
      · simp
      · split <;> simp
      · split <;> simp
    · intro _ hm
      exfalso
      rcases hopt with ho | ho | ho <;> subst ho <;> revert hm
      · simp
      · split <;> simp
      · split <;> simp
    · intro m hm
      exfalso
      rcases hopt with ho | ho | ho <;> subst ho <;> revert hm
      · simp
      · split <;> simp
      · split <;> simp
  · rw [heq]
    refine ⟨?_, ?_, ?_, ?_⟩
    · intro d f hm
      have := pushAndTicket_gen env s0 (extractBasis msgs) tr d f hm
      rcases hopt with ho | ho <;> subst ho <;> revert this
      · split <;> simp
      · split <;> simp
    · intro hm
      have := pushAndTicket_promptMsg env s0 (extractBasis msgs) tr hm
      rcases hopt with ho | ho <;> subst ho <;> revert this
      · split <;> simp
      · split <;> simp
    · intro ha _
      rw [himp ha]
      exact pushAndTicket_mem_of_mem env s0 (extractBasis msgs) _ (by simp)
    · intro m hm
      rcases pushAndTicket_ticket_msg env s0 (extractBasis msgs) tr m hm with
        hin | hm2
      · exfalso
        rcases hopt with ho | ho <;> subst ho <;> revert hin
        · split <;> simp
        · split <;> simp
      · exact hm2

/-- C3 witness: the amended statement instantiated at the unpushed-only
environment on an interactive run. -/
theorem C3_unpushed_only_witness :
    (∀ d f, Event.generateEv d f ∉
      (runPush envUnpushedOnly flagsAsk inpEmpty ⟨true⟩).trace) ∧
    Event.promptMessage ∉
      (runPush envUnpushedOnly flagsAsk inpEmpty ⟨true⟩).trace ∧
    (flagsAsk.autoConfirm = false →
      Event.pushPlainEv ∈
        (runPush envUnpushedOnly flagsAsk inpEmpty ⟨true⟩).trace →
      Event.promptPush ∈
        (runPush envUnpushedOnly flagsAsk inpEmpty ⟨true⟩).trace) ∧
    (∀ m, Event.ticketCreateEv m ∈
        (runPush envUnpushedOnly flagsAsk inpEmpty ⟨true⟩).trace →
      m = extractBasis ["abc1234 - feat: earlier work"]) :=
  C3_unpushed_only envUnpushedOnly flagsAsk inpEmpty ⟨true⟩
    ["abc1234 - feat: earlier work"] rfl rfl (by decide)

/- ===== C5: read query failures ===== -/

/-- C5 counterexample: the first-push check fails (the branch is unreadable),
yet the run continues past it with the substituted default false and still
attempts the push, instead of propagating the query error. -/
theorem C5_counterexample :
    Git.isFirstPushToBranch envBranchErr ⟨false⟩ = Except.error "boom" ∧
    Event.snapshotFirstPush false ∈
      (runPushx envBranchErr flagsAuto inpEmpty ⟨false⟩).trace ∧
    Event.pushPlainEv ∈
      (runPushx envBranchErr flagsAuto inpEmpty ⟨false⟩).trace :=
  ⟨rfl, by decide, by decide⟩

/-- C5 (amended): failures of the staged-changes check and of the staged-diff
read are fatal and propagated with the failing command context, but the
first-push/upstream check and the changed-files listing are not: their errors
are discarded and the workflow continues with the substituted defaults
(false, empty list).  The unstaged-changes check error is likewise discarded
(it only selects which terminal error message is reported: with the check
failing and an empty diff the run reports "no changes to commit or push"
instead of propagating the query error). -/
theorem C5_query_errors (env : GitEnv) (flags : Flags) (inp : UserInput)
    (s0 : GitState)
    (hk : env.apiKey ≠ "") (hrep : env.isRepo = true)
    (hsa : flags.stageAll = true → env.stageAllResult = Except.ok ()) :
    (∀ e, Git.hasStagedChanges env = Except.error e →
      (runPushx env flags inp s0).result =
        RunResult.fail ("failed to check staged changes: " ++ e)) ∧
    (∀ e, Git.hasStagedChanges env = Except.ok true →
      Git.getStagedDiff env = Except.error e →
      (runPushx env flags inp s0).result =
        RunResult.fail ("failed to get staged diff: " ++ e)) ∧
    (∀ e, Git.isFirstPushToBranch env s0 = Except.error e →
      ∀ v, Event.snapshotFirstPush v ∈ (runPushx env flags inp s0).trace →
        v = false) ∧
    (∀ e, Git.getChangedFiles env = Except.error e →
      ∀ d f, Event.generateEv d f ∈ (runPushx env flags inp s0).trace →
        f = []) ∧
    (∀ e, Git.hasUnstagedChanges env = Except.error e →
      Git.hasStagedChanges env = Except.ok false →
      Git.getUnpushedDiff env s0 = Except.ok "" →
      (runPushx env flags inp s0).result =
        RunResult.fail "no changes to commit or push") := by
  refine ⟨?_, ?_, ?_, ?_, ?_⟩
  · intro e he
    unfold runPushx
    rw [if_neg hk, if_neg (by rw [hrep]; simp)]
    dsimp only
    cases hfb : flags.stageAll with
    | true =>
      rw [hsa hfb]
      simp only [if_true, eq_self_iff_true, ite_true]
      rw [he]
    | false =>
      simp only [Bool.false_eq_true, if_false, ite_false]
      rw [he]
  · intro e hst he
    unfold runPushx
    rw [if_neg hk, if_neg (by rw [hrep]; simp)]
    dsimp only
    cases hfb : flags.stageAll with
    | true =>
      rw [hsa hfb]
      simp only [if_true, eq_self_iff_true, ite_true]
      rw [hst]
      simp only [eq_self_iff_true, ite_true]
      rw [he]
    | false =>
      simp only [Bool.false_eq_true, if_false, ite_false]
      rw [hst]
      simp only [eq_self_iff_true, ite_true]
      rw [he]
  · intro e he v hv
    rcases runPushx_shape env flags inp s0 with
      ⟨r, tr, heq, hpre⟩ | ⟨m, tr, heq, hpre, _⟩
    · rw [heq] at hv
      exact absurd hv (preOnly_not_mem_snapshotFP hpre v)
    · rw [heq] at hv
      have := pushAndTicket_snapshot env s0 m tr
        (preOnly_not_mem_snapshotFP hpre) v hv
      rw [this, he]
      rfl
  · intro e he d f hf
    rcases runPushx_shape env flags inp s0 with
      ⟨r, tr, heq, hpre⟩ | ⟨m, tr, heq, hpre, _⟩
    · rw [heq] at hf
      have := preOnly_gen_files hpre d f hf
      rw [this, he]
      rfl
    · rw [heq] at hf
      have := preOnly_gen_files hpre d f
        (pushAndTicket_gen env s0 m tr d f hf)
      rw [this, he]
      rfl
  · intro e hue hst hud
    unfold runPushx
    rw [if_neg hk, if_neg (by rw [hrep]; simp)]
    dsimp only
    cases hfb : flags.stageAll with
    | true =>
      rw [hsa hfb]
      simp only [if_true, eq_self_iff_true, ite_true]
      rw [hst]
      simp only [Bool.false_eq_true, if_false, ite_false]
      rw [hud]
      dsimp only
      unfold pushxNoStaged
      rw [if_pos rfl]
      rw [hue]
      simp only [exceptD]
      rw [if_neg (by simp)]
    | false =>
      simp only [Bool.false_eq_true, if_false, ite_false]
      rw [hst]
      simp only [Bool.false_eq_true, if_false, ite_false]
      rw [hud]
      dsimp only
      unfold pushxNoStaged
      rw [if_pos rfl]
      rw [hue]
      simp only [exceptD]
      rw [if_neg (by simp)]

/-- C5 witness: with a failing staged-changes check the run fails with that
command context, per the amended statement. -/
theorem C5_query_errors_witness :
    (runPushx envStagedErr flagsAuto inpEmpty ⟨false⟩).result =
      RunResult.fail ("failed to check staged changes: " ++ "io") :=
  (C5_query_errors envStagedErr flagsAuto inpEmpty ⟨false⟩
    (by decide) rfl (fun h => Bool.noConfusion h)).1 "io" rfl

/- ===== C7: the edit loop ===== -/

theorem collectEditLines_clean (ls rest acc : List String)
    (h : ∀ l ∈ ls, trimNewlineRight l = l ∧ l ≠ "")
    (hne : acc ++ ls ≠ []) :
    collectEditLines (ls ++ "" :: rest) acc = acc ++ ls := by
  induction ls generalizing acc with
  | nil =>
    rw [List.append_nil] at hne
    rw [List.nil_append]
    unfold collectEditLines
    dsimp only
    rw [show trimNewlineRight "" = "" from rfl]
    rw [if_pos ⟨rfl, hne⟩]
    rw [List.append_nil]
  | cons l ls ih =>
    obtain ⟨hl1, hl2⟩ := h l (List.mem_cons_self l ls)
    rw [List.cons_append]
    unfold collectEditLines
    dsimp only
    rw [hl1]
    rw [if_neg (fun hc => hl2 hc.1)]
    rw [if_pos hl2]
    rw [ih (acc ++ [l]) (fun x hx => h x (List.mem_cons_of_mem l hx))
      (by simp)]
    simp

theorem collectEditLinesF_empty_diverges (stream : List String)
    (h : ∀ l ∈ stream, trimNewlineRight l = "") :
    ∀ fuel, collectEditLinesF fuel stream [] = none := by
  intro fuel
  induction fuel generalizing stream with
  | zero => rfl
  | succ n ih =>
    unfold collectEditLinesF
    dsimp only
    have hline : trimNewlineRight (stream.headD "") = "" := by
      cases stream with
      | nil => rfl
      | cons a rest => exact h a (List.mem_cons_self a rest)
    rw [hline]
    rw [if_neg (fun hc => hc.2 rfl)]
    rw [if_neg (by simp)]
    exact ih stream.tail (fun l hl => h l (List.mem_of_mem_tail hl))

theorem collectEditLinesF_clean (ls rest acc : List String)
    (h : ∀ l ∈ ls, trimNewlineRight l = l ∧ l ≠ "")
    (hne : acc ++ ls ≠ []) :
    ∀ fuel, ls.length < fuel →
      collectEditLinesF fuel (ls ++ "" :: rest) acc = some (acc ++ ls) := by
  induction ls generalizing acc with
  | nil =>
    intro fuel hf
    rw [List.append_nil] at hne
    cases fuel with
    | zero => exact absurd hf (by omega)
    | succ n =>
      rw [List.nil_append, List.append_nil]
      unfold collectEditLinesF
      dsimp only
      rw [show trimNewlineRight (("" :: rest).headD "") = "" from rfl]
      rw [if_pos ⟨rfl, hne⟩]
  | cons l ls ih =>
    intro fuel hf
    cases fuel with
    | zero => exact absurd hf (by omega)
    | succ n =>
      obtain ⟨hl1, hl2⟩ := h l (List.mem_cons_self l ls)
      rw [List.cons_append]
      unfold collectEditLinesF
      dsimp only
      simp only [List.headD, List.tail_cons]
      rw [hl1]
      rw [if_neg (fun hc => hl2 hc.1)]
      rw [if_pos hl2]
      rw [ih (acc ++ [l]) (fun x hx => h x (List.mem_cons_of_mem l hx))
        (by simp) n
        (by simp only [List.length_cons] at hf; omega)]
      simp

theorem collectEditLinesF_sound :
    ∀ fuel stream acc r, collectEditLinesF fuel stream acc = some r →
      collectEditLines stream acc = r := by
  intro fuel
  induction fuel with
  | zero =>
    intro stream acc r h
    simp [collectEditLinesF] at h
  | succ n ih =>
    intro stream acc r h
    unfold collectEditLinesF at h
    dsimp only at h
    cases stream with
    | nil =>
      rw [show trimNewlineRight (([] : List String).headD "") = "" from rfl]
        at h
      by_cases hacc : acc = ([] : List String)
      · subst hacc
        rw [if_neg (fun hc => hc.2 rfl), if_neg (by simp)] at h
        exact ih [] [] r h
      · rw [if_pos ⟨rfl, hacc⟩] at h
        injection h with h
    | cons a rest =>
      rw [show ((a :: rest).headD "") = a from rfl] at h
      rw [show (a :: rest).tail = rest from rfl] at h
      unfold collectEditLines
      dsimp only
      by_cases h1 : trimNewlineRight a = "" ∧ acc ≠ []
      · rw [if_pos h1] at h ⊢
        injection h with h
      · rw [if_neg h1] at h ⊢
        by_cases h2 : trimNewlineRight a ≠ ""
        · rw [if_pos h2] at h ⊢
          exact ih rest (acc ++ [trimNewlineRight a]) r h
        · rw [if_neg h2] at h ⊢
          exact ih rest acc r h

/-- C7: when the user chooses edit at the confirmation prompt of a staged
pushx run, the nonempty lines entered before the terminating empty line,
joined by newlines, become exactly the message passed to commit.  The
zero-lines half of the claim does not hold of the program: the loop's only
break requires at least one kept line, so on an input with no nonempty line
the edit loop never terminates within any bound — the keep-the-proposal
branch of the `len(lines) > 0` guard is dead code.  Whenever the real loop
does terminate, its value agrees with the total pipeline function. -/
theorem C7_edit_message (env : GitEnv) (flags : Flags) (inp : UserInput)
    (s0 : GitState) (diff message : String)
    (hk : env.apiKey ≠ "") (hrep : env.isRepo = true)
    (hsa : flags.stageAll = false)
    (h1 : Git.hasStagedChanges env = Except.ok true)
    (hsd : Git.getStagedDiff env = Except.ok diff) (hd : diff ≠ "")
    (hg : env.genResult = Except.ok message)
    (hauto : flags.autoConfirm = false)
    (hedit : parseConfirm inp.confirmInput = ConfirmDecision.edit) :
    (∀ ls rest, inp.editLines = ls ++ "" :: rest → ls ≠ [] →
      (∀ l ∈ ls, trimNewlineRight l = l ∧ l ≠ "") →
      Event.commitEv (String.intercalate "
" ls) ∈
        (runPushx env flags inp s0).trace) ∧
    (∀ stream, (∀ l ∈ stream, trimNewlineRight l = "") →
      ∀ fuel, collectEditLinesF fuel stream [] = none) ∧
    (∀ fuel stream acc r, collectEditLinesF fuel stream acc = some r →
      collectEditLines stream acc = r) := by
  have hrun : runPushx env flags inp s0 =
      pushxGenerate env flags inp s0 [] diff true := by
    unfold runPushx
    rw [if_neg hk, if_neg (by rw [hrep]; simp)]
    dsimp only
    simp only [hsa, Bool.false_eq_true, if_false, ite_false]
    rw [h1]
    simp only [eq_self_iff_true, ite_true]
    rw [hsd]
  have hgen : ∀ msg2 evs,
      confirmMessage flags.autoConfirm inp.confirmInput inp.editLines
        message = (some msg2, evs) →
      Event.commitEv msg2 ∈
        (pushxGenerate env flags inp s0 [] diff true).trace := by
    intro msg2 evs hc
    unfold pushxGenerate
    dsimp only
    rw [if_neg hd]
    rw [hg]
    dsimp only
    rw [hc]
    dsimp only
    unfold commitAndPush
    simp only [eq_self_iff_true, ite_true]
    cases hcr : env.commitResult with
    | error e =>
      dsimp only
      simp
    | ok u =>
      exact pushAndTicket_mem_of_mem env s0 msg2 _ (by simp)
  refine ⟨?_, collectEditLinesF_empty_diverges, collectEditLinesF_sound⟩
  intro ls rest hstream hls hclean
  have hcoll : collectEditLines inp.editLines [] = ls := by
    rw [hstream]
    exact collectEditLines_clean ls rest [] hclean (by simp [hls])
  have hc : confirmMessage flags.autoConfirm inp.confirmInput
      inp.editLines message =
        (some (String.intercalate "\n" ls), [Event.promptMessage]) := by
    unfold confirmMessage
    rw [if_neg (by rw [hauto]; simp)]
    rw [hedit]
    dsimp only
    rw [hcoll]
    rw [if_pos (List.length_pos.mpr hls)]
  rw [hrun]
  exact hgen _ _ hc

/-- C7 witness: editing with two lines commits exactly those lines joined by
a newline, and the loop has not terminated after five iterations on an
all-empty input. -/
theorem C7_edit_message_witness :
    Event.commitEv
        (String.intercalate "\n" ["fix: better title", "with a body"]) ∈
      (runPushx envHappy flagsAsk inpEditTwo ⟨false⟩).trace ∧
    collectEditLinesF 5 [] [] = none :=
  ⟨(C7_edit_message envHappy flagsAsk inpEditTwo ⟨false⟩ "diff-a"
      "feat(api): add login" (by decide) rfl rfl rfl rfl (by decide) rfl rfl
      (by decide)).1 ["fix: better title", "with a body"] [] rfl (by decide)
      (by decide),
   (C7_edit_message envHappy flagsAsk inpEditTwo ⟨false⟩ "diff-a"
      "feat(api): add login" (by decide) rfl rfl rfl rfl (by decide) rfl rfl
      (by decide)).2.1 [] (by simp) 5⟩

/- ===== C8: rejection and invalid input ===== -/

theorem confirmMessage_abort (a : Bool) (ci : String) (el : List String)
    (msg : String) (ha : a = false)
    (hd : parseConfirm ci = ConfirmDecision.reject ∨
          parseConfirm ci = ConfirmDecision.invalid) :
    confirmMessage a ci el msg = (none, [Event.promptMessage]) := by
  unfold confirmMessage
  rw [if_neg (by rw [ha]; simp)]
  rcases hd with hd | hd <;> rw [hd]

theorem pushxGenerate_abort (env : GitEnv) (flags : Flags) (inp : UserInput)
    (s0 : GitState) (tr0 : List Event) (diff : String) (needsCommit : Bool)
    (hpm : Event.promptMessage ∉ tr0)
    (hauto : flags.autoConfirm = false)
    (hdec : parseConfirm inp.confirmInput = ConfirmDecision.reject ∨
            parseConfirm inp.confirmInput = ConfirmDecision.invalid) :
    pushxGenerate env flags inp s0 tr0 diff needsCommit =
      ⟨RunResult.ok,
        (tr0 ++ [Event.generateEv diff (exceptD [] (Git.getChangedFiles env))])
          ++ [Event.promptMessage], s0⟩ ∨
    (∃ r tr, pushxGenerate env flags inp s0 tr0 diff needsCommit =
        ⟨r, tr, s0⟩ ∧ Event.promptMessage ∉ tr) := by
  unfold pushxGenerate
  dsimp only
  by_cases hdiff : diff = ""
  · rw [if_pos hdiff]
    exact Or.inr ⟨_, tr0, rfl, hpm⟩
  · rw [if_neg hdiff]
    cases hg : env.genResult with
    | error e =>
      refine Or.inr ⟨_, _, rfl, ?_⟩
      intro hmem
      rcases List.mem_append.mp hmem with h | h
      · exact hpm h
      · simp at h
    | ok message =>
      dsimp only
      rw [confirmMessage_abort flags.autoConfirm inp.confirmInput
        inp.editLines message hauto hdec]
      exact Or.inl rfl

theorem pushxGenerate_abort2 (env : GitEnv) (flags : Flags) (inp : UserInput)
    (s0 : GitState) (tr0 : List Event) (diff : String) (needsCommit : Bool)
    (h0 : tr0 = [] ∨ tr0 = [Event.stageAllEv])
    (hstage : flags.stageAll = false → tr0 = [])
    (hauto : flags.autoConfirm = false)
    (hdec : parseConfirm inp.confirmInput = ConfirmDecision.reject ∨
            parseConfirm inp.confirmInput = ConfirmDecision.invalid) :
    (∃ tr, pushxGenerate env flags inp s0 tr0 diff needsCommit =
        ⟨RunResult.ok, tr, s0⟩ ∧
      (∀ m, Event.commitEv m ∉ tr) ∧ Event.pushPlainEv ∉ tr ∧
      Event.pushUpstreamEv ∉ tr ∧ (∀ m, Event.ticketCreateEv m ∉ tr) ∧
      (flags.stageAll = false → Event.stageAllEv ∉ tr)) ∨
    (∃ r tr, pushxGenerate env flags inp s0 tr0 diff needsCommit =
        ⟨r, tr, s0⟩ ∧ Event.promptMessage ∉ tr) := by
  have hpm : Event.promptMessage ∉ tr0 := by
    rcases h0 with h | h <;> subst h <;> simp
  rcases pushxGenerate_abort env flags inp s0 tr0 diff needsCommit hpm hauto
    hdec with habort | hother
  · left
    refine ⟨_, habort, ?_, ?_, ?_, ?_, ?_⟩
    · intro m
      rcases h0 with h | h <;> subst h <;> simp
    · rcases h0 with h | h <;> subst h <;> simp
    · rcases h0 with h | h <;> subst h <;> simp
    · intro m
      rcases h0 with h | h <;> subst h <;> simp
    · intro hf
      rw [hstage hf]
      simp
  · exact Or.inr hother

theorem pushxNoStaged_abort2 (env : GitEnv) (flags : Flags) (inp : UserInput)
    (s0 : GitState) (tr0 : List Event) (diff : String)
    (h0 : tr0 = [] ∨ tr0 = [Event.stageAllEv])
    (hstage : flags.stageAll = false → tr0 = [])
    (hauto : flags.autoConfirm = false)
    (hdec : parseConfirm inp.confirmInput = ConfirmDecision.reject ∨
            parseConfirm inp.confirmInput = ConfirmDecision.invalid) :
    (∃ tr, pushxNoStaged env flags inp s0 tr0 diff = ⟨RunResult.ok, tr, s0⟩ ∧
      (∀ m, Event.commitEv m ∉ tr) ∧ Event.pushPlainEv ∉ tr ∧
      Event.pushUpstreamEv ∉ tr ∧ (∀ m, Event.ticketCreateEv m ∉ tr) ∧
      (flags.stageAll = false → Event.stageAllEv ∉ tr)) ∨
    (∃ r tr, pushxNoStaged env flags inp s0 tr0 diff = ⟨r, tr, s0⟩ ∧
      Event.promptMessage ∉ tr) := by
  have hpm : Event.promptMessage ∉ tr0 := by
    rcases h0 with h | h <;> subst h <;> simp
  unfold pushxNoStaged
  by_cases hdiff : diff = ""
  · rw [if_pos hdiff]
    by_cases hu : exceptD false (Git.hasUnstagedChanges env) = true
    · rw [if_pos hu]
      exact Or.inr ⟨_, tr0, rfl, hpm⟩
    · rw [if_neg hu]
      exact Or.inr ⟨_, tr0, rfl, hpm⟩
  · rw [if_neg hdiff]
    exact pushxGenerate_abort2 env flags inp s0 tr0 diff false h0 hstage
      hauto hdec

theorem runPushx_abort (env : GitEnv) (flags : Flags) (inp : UserInput)
    (s0 : GitState)
    (hauto : flags.autoConfirm = false)
    (hdec : parseConfirm inp.confirmInput = ConfirmDecision.reject ∨
            parseConfirm inp.confirmInput = ConfirmDecision.invalid) :
    (∃ tr, runPushx env flags inp s0 = ⟨RunResult.ok, tr, s0⟩ ∧
      (∀ m, Event.commitEv m ∉ tr) ∧ Event.pushPlainEv ∉ tr ∧
      Event.pushUpstreamEv ∉ tr ∧ (∀ m, Event.ticketCreateEv m ∉ tr) ∧
      (flags.stageAll = false → Event.stageAllEv ∉ tr)) ∨
    (∃ r tr, runPushx env flags inp s0 = ⟨r, tr, s0⟩ ∧
      Event.promptMessage ∉ tr) := by
  have h0 : (if flags.stageAll then [Event.stageAllEv] else []) = ([] : List Event) ∨
      (if flags.stageAll then [Event.stageAllEv] else []) = [Event.stageAllEv] := by
    split
    · exact Or.inr rfl
    · exact Or.inl rfl
  have hstage : flags.stageAll = false →
      (if flags.stageAll then [Event.stageAllEv] else []) = ([] : List Event) := by
    intro hf
    rw [hf]
    simp
  unfold runPushx
  by_cases hk : env.apiKey = ""
  · rw [if_pos hk]
    exact Or.inr ⟨_, [], rfl, by simp⟩
  · rw [if_neg hk]
    by_cases hr : env.isRepo = false
    · rw [if_pos hr]
      exact Or.inr ⟨_, [], rfl, by simp⟩
    · rw [if_neg hr]
      dsimp only
      have hpm0 : Event.promptMessage ∉
          (if flags.stageAll then [Event.stageAllEv] else []) := by
        rcases h0 with h | h <;> rw [h] <;> simp
      cases hs : (if flags.stageAll then env.stageAllResult else Except.ok ()) with
      | error e => exact Or.inr ⟨_, _, rfl, hpm0⟩
      | ok u =>
        dsimp only
        cases hh : Git.hasStagedChanges env with
        | error e => exact Or.inr ⟨_, _, rfl, hpm0⟩
        | ok hasStaged =>
          dsimp only
          by_cases hb : hasStaged = true
          · rw [if_pos hb]
            cases hsd : Git.getStagedDiff env with
            | error e => exact Or.inr ⟨_, _, rfl, hpm0⟩
            | ok diff =>
              exact pushxGenerate_abort2 env flags inp s0 _ diff true h0
                hstage hauto hdec
          · rw [if_neg hb]
            cases hud : Git.getUnpushedDiff env s0 with
            | ok diff =>
              exact pushxNoStaged_abort2 env flags inp s0 _ diff h0 hstage
                hauto hdec
            | error e1 =>
              cases had : Git.getAllDiff env with
              | error e => exact Or.inr ⟨_, _, rfl, hpm0⟩
              | ok diff =>
                exact pushxNoStaged_abort2 env flags inp s0 _ diff h0 hstage
                  hauto hdec

/-- C8 counterexample: with stage-all requested, the staging mutation runs
before the prompt, so a run the user rejects has still changed the staged
state of the working tree, contrary to the claim that it is left unchanged. -/
theorem C8_counterexample :
    parseConfirm inpReject.confirmInput = ConfirmDecision.reject ∧
    (runPushx envHappy flagsAllAsk inpReject ⟨false⟩).result = RunResult.ok ∧
    Event.stageAllEv ∈
      (runPushx envHappy flagsAllAsk inpReject ⟨false⟩).trace :=
  ⟨by decide, by decide, by decide⟩

/-- C8 (amended): a run of the pushx handler whose message confirmation is
answered with rejection or any invalid input exits with success (nil error)
and performs no commit, no push and no ticket creation, and — except for a
stage-all requested before the prompt — records no repository mutation at
all; with no stage-all flag the trace is mutation-free and the tracking
state is unchanged. -/
theorem C8_reject_aborts (env : GitEnv) (flags : Flags) (inp : UserInput)
    (s0 : GitState)
    (hauto : flags.autoConfirm = false)
    (hdec : parseConfirm inp.confirmInput = ConfirmDecision.reject ∨
            parseConfirm inp.confirmInput = ConfirmDecision.invalid)
    (hprompt : Event.promptMessage ∈ (runPushx env flags inp s0).trace) :
    (runPushx env flags inp s0).result = RunResult.ok ∧
    (∀ m, Event.commitEv m ∉ (runPushx env flags inp s0).trace) ∧
    Event.pushPlainEv ∉ (runPushx env flags inp s0).trace ∧
    Event.pushUpstreamEv ∉ (runPushx env flags inp s0).trace ∧
    (∀ m, Event.ticketCreateEv m ∉ (runPushx env flags inp s0).trace) ∧
    (flags.stageAll = false →
      Event.stageAllEv ∉ (runPushx env flags inp s0).trace) ∧
    (runPushx env flags inp s0).state = s0 := by
  rcases runPushx_abort env flags inp s0 hauto hdec with
    ⟨tr, heq, hc⟩ | ⟨r, tr, heq, hpm⟩
  · rw [heq]
    exact ⟨rfl, hc.1, hc.2.1, hc.2.2.1, hc.2.2.2.1, hc.2.2.2.2, rfl⟩
  · rw [heq] at hprompt
    exact absurd hprompt hpm

/-- C8 witness: a rejected interactive run without stage-all exits cleanly
with no mutation events at all. -/
theorem C8_reject_aborts_witness :
    (runPushx envHappy flagsAsk inpReject ⟨false⟩).result = RunResult.ok ∧
    (∀ m, Event.commitEv m ∉
      (runPushx envHappy flagsAsk inpReject ⟨false⟩).trace) ∧
    Event.pushPlainEv ∉ (runPushx envHappy flagsAsk inpReject ⟨false⟩).trace ∧
    Event.pushUpstreamEv ∉
      (runPushx envHappy flagsAsk inpReject ⟨false⟩).trace ∧
    (∀ m, Event.ticketCreateEv m ∉
      (runPushx envHappy flagsAsk inpReject ⟨false⟩).trace) ∧
    (flagsAsk.stageAll = false →
      Event.stageAllEv ∉ (runPushx envHappy flagsAsk inpReject ⟨false⟩).trace) ∧
    (runPushx envHappy flagsAsk inpReject ⟨false⟩).state = ⟨false⟩ :=
  C8_reject_aborts envHappy flagsAsk inpReject ⟨false⟩ rfl
    (Or.inl (by decide)) (by decide)
